import Mathlib

/-!
# Verification of the skychat-xterm session broker

Shallow embedding of the server-side session broker of skychat-xterm:

* `src/app/server/utils/security.ts` — input validation helpers
  (`validateAndNormalizeUsername`, `validateTerminalDimensions`,
  `validatePathComponent`, `sanitizeTerminalInput`);
* `src/app/server/services/PtyManager.ts` — the session registry
  (`getOrCreateSession`, `createSession`, `attachToSession`,
  `detachFromSession`, `cleanupSession`, `cleanupInactiveSessions`,
  `shutdownAll`);
* `src/app/server/websocket/terminal.ts` — the per-connection relay
  (message handler for `input` / `resize`, the per-connection PTY exit
  handler).

JavaScript strings are modelled as `List Char`; the mutable `PtyManager`
together with the WebSocket open/closed state and the registered PTY exit
listeners is modelled as an explicit state record `SysState`, and the
side effects of each operation (messages sent on sockets, socket closes,
PTY spawns / kills / writes / resizes) are collected in an event trace.
Operations that can `throw` in the source return `Except String _`.
-/

/-- JavaScript string, modelled as a list of characters. -/
abbrev JStr := List Char

/-- Membership of a character in the class `[a-z0-9_-]` of
`USERNAME_REGEX` (security.ts line 9), expressed on code points. -/
def isUserChar (c : Char) : Bool :=
  (97 ≤ c.toNat && c.toNat ≤ 122) || (48 ≤ c.toNat && c.toNat ≤ 57) ||
    c.toNat = 45 || c.toNat = 95

/-- JavaScript `String.prototype.trim`: drop whitespace from both ends. -/
def jsTrim (s : JStr) : JStr :=
  ((s.dropWhile Char.isWhitespace).reverse.dropWhile Char.isWhitespace).reverse

/-- JavaScript `String.prototype.toLowerCase`, restricted to the basic
latin letters (all that matters for the username character class). -/
def jsToLower (s : JStr) : JStr :=
  s.map Char.toLower

/-- `s.includes('..')` — does `s` contain two consecutive dots? -/
def hasDotDot : JStr → Bool
  | '.' :: '.' :: _ => true
  | _ :: rest => hasDotDot rest
  | [] => false

/-- `validateAndNormalizeUsername` (security.ts lines 17–52): trim,
lowercase, then check length 1..32, the character class, and the
dot-related checks; returns the normalized username or throws. -/
def validateAndNormalizeUsername (username : JStr) : Except String JStr :=
  let normalized := jsToLower (jsTrim username)
  if normalized.length = 0 then
    .error "Username cannot be empty"
  else if normalized.length > 32 then
    .error "Username too long (max 32 characters)"
  else if !normalized.all isUserChar then
    .error "Username must contain only lowercase letters, numbers, hyphens, and underscores"
  else if normalized = ['.'] ∨ normalized = ['.', '.'] then
    .error "Invalid username"
  else if hasDotDot normalized then
    .error "Invalid username"
  else
    .ok normalized

/-- `validatePathComponent` (security.ts lines 76–92): reject null bytes,
`..` substrings, path separators and the components `.` / `..`. -/
def validatePathComponent (input : JStr) : Except String Unit :=
  if input.contains '\x00' then
    .error "Null bytes not allowed"
  else if hasDotDot input then
    .error "Directory traversal not allowed"
  else if input.contains '/' || input.contains '\\' then
    .error "Path separators not allowed"
  else if input = ['.'] ∨ input = ['.', '.'] then
    .error "Invalid path component"
  else
    .ok ()

/-- `sanitizeTerminalInput` (security.ts lines 99–112): reject inputs of
more than 10000 units, pass everything else through unchanged. -/
def sanitizeTerminalInput (data : JStr) : Except String JStr :=
  if data.length > 10000 then
    .error "Terminal input too large"
  else
    .ok data

/-- `Number.isInteger` on a rational model of JavaScript numbers. -/
def numberIsInteger (q : ℚ) : Bool :=
  q.den = 1

/-- `validateTerminalDimensions` (security.ts lines 60–68): both
dimensions must be integers in `[1, 1000]`. -/
def validateTerminalDimensions (cols rows : ℚ) : Except String Unit :=
  if !numberIsInteger cols || cols < 1 || cols > 1000 then
    .error "Invalid terminal columns (must be 1-1000)"
  else if !numberIsInteger rows || rows < 1 || rows > 1000 then
    .error "Invalid terminal rows (must be 1-1000)"
  else
    .ok ()

/-! ## Character-level lemmas -/

theorem isUserChar_not_whitespace {c : Char} (h : isUserChar c = true) :
    c.isWhitespace = false := by
  by_contra hw
  simp only [Bool.not_eq_false, Char.isWhitespace] at hw
  simp only [Bool.or_eq_true, decide_eq_true_eq] at hw
  rcases hw with ((h1 | h1) | h1) | h1 <;> subst h1 <;> simp [isUserChar] at h

theorem isUserChar_toLower {c : Char} (h : isUserChar c = true) :
    c.toLower = c := by
  unfold Char.toLower
  rw [if_neg]
  intro ⟨h1, h2⟩
  simp only [isUserChar, Bool.or_eq_true, Bool.and_eq_true, decide_eq_true_eq] at h
  omega

theorem dropWhile_eq_self_of_none {p : Char → Bool} {l : JStr}
    (h : ∀ c ∈ l, p c = false) : l.dropWhile p = l := by
  cases l with
  | nil => rfl
  | cons c cs =>
    simp only [List.dropWhile]
    rw [h c (by simp)]

theorem jsTrim_eq_self {l : JStr} (h : ∀ c ∈ l, isUserChar c = true) :
    jsTrim l = l := by
  unfold jsTrim
  rw [dropWhile_eq_self_of_none (fun c hc => isUserChar_not_whitespace (h c hc))]
  rw [dropWhile_eq_self_of_none
    (fun c hc => isUserChar_not_whitespace (h c (List.mem_reverse.mp hc)))]
  exact List.reverse_reverse l

theorem jsToLower_eq_self {l : JStr} (h : ∀ c ∈ l, isUserChar c = true) :
    jsToLower l = l := by
  unfold jsToLower
  rw [List.map_congr_left (fun c hc => isUserChar_toLower (h c hc))]
  exact List.map_id l

/-- Everything `validateAndNormalizeUsername` guarantees about a value it
returns. -/
theorem validate_ok_spec {u r : JStr}
    (h : validateAndNormalizeUsername u = .ok r) :
    r ≠ [] ∧ r.length ≤ 32 ∧ (∀ c ∈ r, isUserChar c = true) ∧
      hasDotDot r = false := by
  simp only [validateAndNormalizeUsername] at h
  split_ifs at h with h1 h2 h3 h4 h5
  simp only [Except.ok.injEq] at h
  subst h
  refine ⟨?_, by omega, ?_, ?_⟩
  · intro hnil
    rw [hnil] at h1
    simp at h1
  · intro c hc
    simp only [Bool.not_eq_true'] at h3
    rw [Bool.not_eq_false, List.all_eq_true] at h3
    exact h3 c hc
  · simpa using h5

/-- Normalization is idempotent: re-validating a returned username
succeeds and returns it unchanged. -/
theorem validate_ok_idem {u r : JStr}
    (h : validateAndNormalizeUsername u = .ok r) :
    validateAndNormalizeUsername r = .ok r := by
  obtain ⟨hne, hlen, hchars, hdd⟩ := validate_ok_spec h
  have hnorm : jsToLower (jsTrim r) = r := by
    rw [jsTrim_eq_self hchars, jsToLower_eq_self hchars]
  unfold validateAndNormalizeUsername
  simp only [hnorm]
  rw [if_neg (by simpa using hne), if_neg (by omega),
    if_neg (by simp [List.all_eq_true]; exact fun c hc => hchars c hc)]
  rw [if_neg, if_neg (by simp [hdd])]
  rintro (hdot | hdot) <;> rw [hdot] at hchars
  · have := hchars '.' (by simp)
    simp [isUserChar] at this
  · have := hchars '.' (by simp)
    simp [isUserChar] at this

/-- A validated username always passes `validatePathComponent` (the
defence-in-depth check in `createSession` never throws). -/
theorem validatePath_of_valid {u r : JStr}
    (h : validateAndNormalizeUsername u = .ok r) :
    validatePathComponent r = .ok () := by
  obtain ⟨hne, hlen, hchars, hdd⟩ := validate_ok_spec h
  have hnot : ∀ (c : Char), c ∈ r → isUserChar c = false → False := by
    intro c hc hf
    rw [hchars c hc] at hf
    exact Bool.true_eq_false.mp hf
  unfold validatePathComponent
  rw [if_neg, if_neg (by simp [hdd]), if_neg, if_neg]
  · rintro (hdot | hdot) <;> rw [hdot] at hchars
    · have := hchars '.' (by simp)
      simp [isUserChar] at this
    · have := hchars '.' (by simp)
      simp [isUserChar] at this
  · simp only [Bool.or_eq_true, List.contains, List.elem_eq_mem,
      decide_eq_true_eq]
    rintro (hm | hm)
    · exact hnot '/' hm (by decide)
    · exact hnot '\\' hm (by decide)
  · simp only [List.contains, List.elem_eq_mem, decide_eq_true_eq]
    intro hm
    exact hnot '\x00' hm (by decide)

/-! ## The session registry state

`PtySession` mirrors the record in `PtyManager.ts` (lines 27–32); the
PTY handle is modelled by a numeric process id, WebSockets by numeric
ids.  `SysState` bundles the `PtyManager`'s private `sessions` map with
the state of the transport layer that the manager's effects act on: the
set of WebSocket ids whose `readyState` is OPEN, the per-connection
`pty.once('exit', ...)` listeners registered in `terminal.ts` (line 252),
and the manager's own `ptyProcess.on('exit', ...)` handlers registered in
`createSession` (lines 108–113), each recorded with the username the
handler captured. -/

/-- One PTY session (`PtySession` in PtyManager.ts lines 27–32). -/
structure PtySession where
  ptyId : Nat
  created : Nat
  lastActivity : Nat
  subscribers : List Nat
  deriving Repr, DecidableEq

/-- The broker's full mutable state. -/
structure SysState where
  /-- `PtyManager.sessions`, as an association list with unique keys. -/
  sessions : List (JStr × PtySession)
  /-- Fresh pty id for the next `pty.spawn`. -/
  nextPty : Nat
  /-- WebSocket ids whose `readyState` is `1` (OPEN). -/
  openWs : List Nat
  /-- Per-connection `pty.once('exit')` listeners: (pty id, ws id). -/
  exitListeners : List (Nat × Nat)
  /-- The manager's `on('exit')` handler per pty: (pty id, captured username). -/
  mgrExitHandlers : List (Nat × JStr)
  deriving Repr, DecidableEq

/-- Environment of a call: the clock (`Date.now()`) and whether
`pty.kill()` succeeds or throws for a given pty. -/
structure Env where
  now : Nat
  killOk : Nat → Bool

/-- Observable side effects of the broker's operations. -/
inductive Event where
  /-- `pty.spawn` of a new process. -/
  | spawnPty (ptyId : Nat)
  /-- `ws.send(JSON.stringify({type: 'exit', code}))`. -/
  | sendExit (ws : Nat) (code : Nat)
  /-- `ws.send(JSON.stringify({type: 'error', ...}))`. -/
  | sendError (ws : Nat)
  /-- `ws.close()`. -/
  | closeWs (ws : Nat)
  /-- `pty.kill()`; `ok` is false when the kill threw. -/
  | killPty (ptyId : Nat) (ok : Bool)
  /-- `pty.write(data)`. -/
  | ptyWrite (ptyId : Nat) (data : JStr)
  /-- `pty.resize(cols, rows)`. -/
  | ptyResize (ptyId : Nat) (cols rows : ℚ)
  deriving Repr, DecidableEq

/-! ### Association-list primitives (JavaScript `Map` semantics) -/

/-- `Map.prototype.get`. -/
def alookup {κ α : Type} [DecidableEq κ] : List (κ × α) → κ → Option α
  | [], _ => none
  | (k', v') :: rest, k => if k' = k then some v' else alookup rest k

/-- `Map.prototype.set`: replace in place if present, else append. -/
def aset {κ α : Type} [DecidableEq κ] : List (κ × α) → κ → α → List (κ × α)
  | [], k, v => [(k, v)]
  | (k', v') :: rest, k, v =>
    if k' = k then (k, v) :: rest else (k', v') :: aset rest k v

/-- `Map.prototype.delete`. -/
def adel {κ α : Type} [DecidableEq κ] : List (κ × α) → κ → List (κ × α)
  | [], _ => []
  | (k', v') :: rest, k => if k' = k then rest else (k', v') :: adel rest k

/-! ### Sending the terminal `exit` message to a list of sockets

Both `cleanupSession` (PtyManager.ts lines 179–185, code `0`) and the
per-connection exit handler (terminal.ts lines 245–252, the pty's exit
code) loop over sockets and, for each one that is OPEN, send an `exit`
message and close it.  Closing flips the socket's `readyState` away from
OPEN, so a socket reached twice is only notified once. -/

/-- Walk `targets` in order; for each ws currently open, emit
`sendExit ws code` and `closeWs ws` and mark it no longer open.
Returns the remaining open set and the event trace. -/
def closeWithExit (code : Nat) : List Nat → List Nat → List Nat × List Event
  | openWs, [] => (openWs, [])
  | openWs, ws :: rest =>
    if ws ∈ openWs then
      let next := closeWithExit code (openWs.filter (fun w => w ≠ ws)) rest
      (next.1, .sendExit ws code :: .closeWs ws :: next.2)
    else
      closeWithExit code openWs rest

/-! ### The `PtyManager` operations -/

/-- `cleanupSession` after username normalization (PtyManager.ts lines
174–196): notify and close every open subscriber, kill the pty (a throw
is caught and logged), delete the registry entry. -/
def cleanupSessionCore (env : Env) (st : SysState) (n : JStr) :
    SysState × List Event :=
  match alookup st.sessions n with
  | none => (st, [])
  | some session =>
    let next := closeWithExit 0 st.openWs session.subscribers
    ({ st with sessions := adel st.sessions n, openWs := next.1 },
      next.2 ++ [.killPty session.ptyId (env.killOk session.ptyId)])

/-- `cleanupSession` (PtyManager.ts lines 172–196). -/
def cleanupSession (env : Env) (st : SysState) (username : JStr) :
    Except String (SysState × List Event) :=
  match validateAndNormalizeUsername username with
  | .error e => .error e
  | .ok n => .ok (cleanupSessionCore env st n)

/-- `createSession` (PtyManager.ts lines 71–116): validate again, spawn a
pty, register the session and the manager's exit handler. -/
def createSession (env : Env) (st : SysState) (username : JStr) :
    Except String (SysState × List Event × PtySession) :=
  match validateAndNormalizeUsername username with
  | .error e => .error e
  | .ok n =>
    match validatePathComponent n with
    | .error e => .error e
    | .ok _ =>
      let p := st.nextPty
      let session : PtySession :=
        { ptyId := p, created := env.now, lastActivity := env.now,
          subscribers := [] }
      .ok ({ st with
              sessions := aset st.sessions n session,
              nextPty := p + 1,
              mgrExitHandlers := st.mgrExitHandlers ++ [(p, n)] },
        [.spawnPty p], session)

/-- `getOrCreateSession` (PtyManager.ts lines 49–64). -/
def getOrCreateSession (env : Env) (st : SysState) (username : JStr)
    (forceNew : Bool) : Except String (SysState × List Event × PtySession) :=
  match validateAndNormalizeUsername username with
  | .error e => .error e
  | .ok n =>
    let step :=
      if forceNew ∧ (alookup st.sessions n).isSome then
        cleanupSessionCore env st n
      else
        (st, [])
    match alookup step.1.sessions n with
    | some session =>
      let session' := { session with lastActivity := env.now }
      .ok ({ step.1 with sessions := aset step.1.sessions n session' },
        step.2, session')
    | none =>
      match createSession env step.1 n with
      | .error e => .error e
      | .ok (st', evs', session) => .ok (st', step.2 ++ evs', session)

/-- `attachToSession` (PtyManager.ts lines 143–150). -/
def attachToSession (env : Env) (st : SysState) (username : JStr)
    (ws : Nat) : Except String SysState :=
  match validateAndNormalizeUsername username with
  | .error e => .error e
  | .ok n =>
    match alookup st.sessions n with
    | some session =>
      if ws ∈ session.subscribers then
        .ok st
      else
        let session' := { session with
          subscribers := session.subscribers ++ [ws],
          lastActivity := env.now }
        .ok { st with sessions := aset st.sessions n session' }
    | none => .ok st

/-- `detachFromSession` (PtyManager.ts lines 157–166): `indexOf` /
`splice` removes the first occurrence, if any. -/
def detachFromSession (st : SysState) (username : JStr) (ws : Nat) :
    Except String SysState :=
  match validateAndNormalizeUsername username with
  | .error e => .error e
  | .ok n =>
    match alookup st.sessions n with
    | some session =>
      let session' := { session with
        subscribers := session.subscribers.erase ws }
      .ok { st with sessions := aset st.sessions n session' }
    | none => .ok st

/-- The reaping condition of `cleanupInactiveSessions` (PtyManager.ts
line 209): no active subscribers and inactive beyond the timeout. -/
def reapable (env : Env) (timeoutMs : Int) (session : PtySession) : Prop :=
  session.subscribers.length = 0 ∧
    (env.now : Int) - (session.lastActivity : Int) > timeoutMs

instance (env : Env) (timeoutMs : Int) (session : PtySession) :
    Decidable (reapable env timeoutMs session) :=
  instDecidableAnd

/-- The loop body of `cleanupInactiveSessions` (PtyManager.ts lines
207–213), folded over a snapshot of the entries. -/
def sweepGo (env : Env) (timeoutMs : Int) :
    List (JStr × PtySession) → SysState → List Event → Nat →
    Except String (SysState × List Event × Nat)
  | [], st, evs, cleaned => .ok (st, evs, cleaned)
  | (username, session) :: rest, st, evs, cleaned =>
    if reapable env timeoutMs session then
      match cleanupSession env st username with
      | .error e => .error e
      | .ok (st', evs') => sweepGo env timeoutMs rest st' (evs ++ evs') (cleaned + 1)
    else
      sweepGo env timeoutMs rest st evs cleaned

/-- `cleanupInactiveSessions` (PtyManager.ts lines 203–220). -/
def cleanupInactiveSessions (env : Env) (st : SysState) (timeoutMs : Int) :
    Except String (SysState × List Event × Nat) :=
  sweepGo env timeoutMs st.sessions st [] 0

/-- The loop body of `shutdownAll` (PtyManager.ts lines 251–253). -/
def shutdownGo (env : Env) :
    List JStr → SysState → List Event → Except String (SysState × List Event)
  | [], st, evs => .ok (st, evs)
  | username :: rest, st, evs =>
    match cleanupSession env st username with
    | .error e => .error e
    | .ok (st', evs') => shutdownGo env rest st' (evs ++ evs')

/-- `shutdownAll` (PtyManager.ts lines 249–254). -/
def shutdownAll (env : Env) (st : SysState) :
    Except String (SysState × List Event) :=
  shutdownGo env (st.sessions.map Prod.fst) st []

/-! ### Process exit and the inbound message handler -/

/-- Asynchronous `exit` of pty `p` with exit code `code`.  Listeners run
in registration order: the manager's handler (registered in
`createSession`, so first) calls `cleanupSession` with the username it
captured; then each per-connection `once('exit')` handler (terminal.ts
lines 245–252) sends the pty's exit code to its socket if that socket is
still open, and closes it.  The `once` listeners and the manager handler
for `p` are consumed. -/
def processExit (env : Env) (st : SysState) (p : Nat) (code : Nat) :
    Except String (SysState × List Event) :=
  let mgrStep : Except String (SysState × List Event) :=
    match alookup st.mgrExitHandlers p with
    | some n => cleanupSession env st n
    | none => .ok (st, [])
  match mgrStep with
  | .error e => .error e
  | .ok (st1, evs1) =>
    let targets := (st1.exitListeners.filter (fun e => e.1 == p)).map Prod.snd
    let next := closeWithExit code st1.openWs targets
    .ok ({ st1 with
            openWs := next.1,
            exitListeners := st1.exitListeners.filter (fun e => !(e.1 == p)),
            mgrExitHandlers := adel st1.mgrExitHandlers p },
      evs1 ++ next.2)

/-- Parsed inbound WebSocket message (`WebSocketMessage` in terminal.ts
lines 120–127); fields absent in the JSON are `none`. -/
inductive WsMessage where
  | input (data : Option JStr)
  | resize (cols rows : Option ℚ)
  | other
  deriving Repr, DecidableEq

/-- The `ws.on('message')` handler of `setupTerminalWebSocket`
(terminal.ts lines 184–227) for a connection whose socket is `ws` and
whose session pty is `p`.  `if (msg.data)` and `if (msg.cols && msg.rows)`
are JavaScript truthiness tests: absent fields, the empty string and the
number `0` all fail them. -/
def handleMessage (st : SysState) (ws : Nat) (p : Nat) (msg : WsMessage) :
    SysState × List Event :=
  match msg with
  | .input data =>
    match data with
    | none => (st, [])
    | some d =>
      if d.length = 0 then (st, [])
      else
        match sanitizeTerminalInput d with
        | .ok sanitized => (st, [.ptyWrite p sanitized])
        | .error _ => (st, [.sendError ws])
  | .resize cols rows =>
    match cols, rows with
    | some c, some r =>
      if c ≠ 0 ∧ r ≠ 0 then
        match validateTerminalDimensions c r with
        | .ok _ => (st, [.ptyResize p c r])
        | .error _ => (st, [])
      else (st, [])
    | some _, none => (st, [])
    | none, _ => (st, [])
  | .other => (st, [])

/-! ## Association-list lemmas -/

/-- The keys of an association list. -/
def keys {κ α : Type} (l : List (κ × α)) : List κ :=
  l.map Prod.fst

theorem alookup_aset_self {κ α : Type} [DecidableEq κ]
    (l : List (κ × α)) (k : κ) (v : α) :
    alookup (aset l k v) k = some v := by
  induction l with
  | nil => simp [aset, alookup]
  | cons e rest ih =>
    obtain ⟨k', v'⟩ := e
    by_cases h : k' = k
    · subst h
      simp [aset, alookup]
    · simp [aset, alookup, h, ih]

theorem alookup_aset_ne {κ α : Type} [DecidableEq κ]
    {l : List (κ × α)} {k k' : κ} (v : α) (h : k' ≠ k) :
    alookup (aset l k v) k' = alookup l k' := by
  have h' : ¬k = k' := fun he => h he.symm
  induction l with
  | nil => simp [aset, alookup, h']
  | cons e rest ih =>
    obtain ⟨k'', v''⟩ := e
    by_cases he : k'' = k
    · subst he
      simp [aset, alookup, h']
    · simp [aset, alookup, he, ih]

theorem alookup_eq_none_of_not_mem {κ α : Type} [DecidableEq κ]
    {l : List (κ × α)} {k : κ} (h : k ∉ keys l) :
    alookup l k = none := by
  induction l with
  | nil => rfl
  | cons e rest ih =>
    obtain ⟨k', v'⟩ := e
    simp only [keys, List.map_cons, List.mem_cons] at h
    push_neg at h
    have h1 : ¬k' = k := fun he => h.1 he.symm
    simp only [alookup, if_neg h1]
    exact ih (by simpa [keys] using h.2)

theorem mem_keys_of_alookup {κ α : Type} [DecidableEq κ]
    {l : List (κ × α)} {k : κ} {v : α} (h : alookup l k = some v) :
    k ∈ keys l := by
  by_contra hm
  rw [alookup_eq_none_of_not_mem hm] at h
  exact Option.noConfusion h

theorem adel_sublist {κ α : Type} [DecidableEq κ]
    (l : List (κ × α)) (k : κ) : List.Sublist (adel l k) l := by
  induction l with
  | nil => simp [adel]
  | cons e rest ih =>
    obtain ⟨k', v'⟩ := e
    by_cases h : k' = k
    · subst h
      simp only [adel, if_pos rfl]
      exact List.sublist_cons_self _ rest
    · simpa [adel, h] using ih.cons₂ (k', v')

theorem keys_adel_nodup {κ α : Type} [DecidableEq κ]
    {l : List (κ × α)} (k : κ) (h : (keys l).Nodup) :
    (keys (adel l k)).Nodup :=
  List.Nodup.sublist (List.Sublist.map Prod.fst (adel_sublist l k)) h

theorem alookup_adel_self {κ α : Type} [DecidableEq κ]
    {l : List (κ × α)} {k : κ} (h : (keys l).Nodup) :
    alookup (adel l k) k = none := by
  induction l with
  | nil => rfl
  | cons e rest ih =>
    obtain ⟨k', v'⟩ := e
    simp only [keys, List.map_cons, List.nodup_cons] at h
    by_cases he : k' = k
    · subst he
      simp only [adel, if_pos rfl]
      exact alookup_eq_none_of_not_mem h.1
    · simp only [adel, if_neg he, alookup, if_neg he]
      exact ih h.2

theorem alookup_adel_ne {κ α : Type} [DecidableEq κ]
    {l : List (κ × α)} {k k' : κ} (h : k' ≠ k) :
    alookup (adel l k) k' = alookup l k' := by
  induction l with
  | nil => rfl
  | cons e rest ih =>
    obtain ⟨k'', v''⟩ := e
    by_cases he : k'' = k
    · subst he
      have h1 : ¬k'' = k' := fun hx => h hx.symm
      simp [adel, alookup, h1]
    · simp only [adel, if_neg he, alookup]
      by_cases he2 : k'' = k'
      · simp [he2]
      · simp [he2, ih]

theorem keys_aset {κ α : Type} [DecidableEq κ]
    (l : List (κ × α)) (k : κ) (v : α) :
    keys (aset l k v) = if k ∈ keys l then keys l else keys l ++ [k] := by
  induction l with
  | nil => simp [aset, keys]
  | cons e rest ih =>
    obtain ⟨k', v'⟩ := e
    by_cases h : k' = k
    · subst h
      simp [aset, keys]
    · have h1 : ¬k = k' := fun he => h he.symm
      have hk : keys ((k', v') :: aset rest k v) = k' :: keys (aset rest k v) := rfl
      have hk2 : keys ((k', v') :: rest) = k' :: keys rest := rfl
      simp only [aset, if_neg h]
      rw [hk, hk2, ih]
      by_cases hm : k ∈ keys rest
      · rw [if_pos hm, if_pos (List.mem_cons_of_mem _ hm)]
      · rw [if_neg hm, if_neg ?_, List.cons_append]
        simp only [List.mem_cons]
        rintro (hx | hx)
        · exact h1 hx
        · exact hm hx

theorem keys_aset_nodup {κ α : Type} [DecidableEq κ]
    {l : List (κ × α)} (k : κ) (v : α) (h : (keys l).Nodup) :
    (keys (aset l k v)).Nodup := by
  rw [keys_aset]
  by_cases hm : k ∈ keys l
  · simpa [hm] using h
  · simp only [hm, if_false]
    refine List.Nodup.append h (List.nodup_singleton k) ?_
    intro a ha hb
    rw [List.mem_singleton] at hb
    exact hm (hb ▸ ha)

theorem count_keys_aset_of_nodup {κ α : Type} [DecidableEq κ]
    {l : List (κ × α)} (k : κ) (v : α) (h : (keys l).Nodup) :
    (keys (aset l k v)).count k = 1 := by
  rw [keys_aset]
  by_cases hm : k ∈ keys l
  · rw [if_pos hm]
    exact List.count_eq_one_of_mem h hm
  · rw [if_neg hm, List.count_append, List.count_eq_zero_of_not_mem hm]
    simp

/-! ## Trace lemmas for `closeWithExit` -/

/-- Is the event an `exit` message sent to socket `ws` (any code)? -/
def isSendExitTo (ws : Nat) : Event → Bool
  | .sendExit w _ => w == ws
  | _ => false

/-- Is the event a `close` of socket `ws`? -/
def isCloseOf (ws : Nat) : Event → Bool
  | .closeWs w => w == ws
  | _ => false

/-- Number of `exit` messages sent to `ws` in a trace. -/
def countSendExit (ws : Nat) (evs : List Event) : Nat :=
  (evs.filter (isSendExitTo ws)).length

/-- Number of closes of `ws` in a trace. -/
def countClose (ws : Nat) (evs : List Event) : Nat :=
  (evs.filter (isCloseOf ws)).length

theorem countSendExit_append (ws : Nat) (l1 l2 : List Event) :
    countSendExit ws (l1 ++ l2) = countSendExit ws l1 + countSendExit ws l2 := by
  simp [countSendExit, List.filter_append]

theorem countClose_append (ws : Nat) (l1 l2 : List Event) :
    countClose ws (l1 ++ l2) = countClose ws l1 + countClose ws l2 := by
  simp [countClose, List.filter_append]

theorem countSendExit_cons (w : Nat) (e : Event) (evs : List Event) :
    countSendExit w (e :: evs) =
      if isSendExitTo w e = true then countSendExit w evs + 1
      else countSendExit w evs := by
  simp only [countSendExit, List.filter_cons]
  split <;> simp

theorem countClose_cons (w : Nat) (e : Event) (evs : List Event) :
    countClose w (e :: evs) =
      if isCloseOf w e = true then countClose w evs + 1
      else countClose w evs := by
  simp only [countClose, List.filter_cons]
  split <;> simp

theorem closeWithExit_mem_open (code : Nat) (o ts : List Nat) (w : Nat) :
    w ∈ (closeWithExit code o ts).1 ↔ (w ∈ o ∧ w ∉ ts) := by
  induction ts generalizing o with
  | nil => simp [closeWithExit]
  | cons ws rest ih =>
    by_cases h : ws ∈ o
    · simp only [closeWithExit, if_pos h]
      rw [ih]
      simp only [List.mem_filter, decide_eq_true_eq]
      constructor
      · rintro ⟨⟨hwo, hne⟩, hnr⟩
        refine ⟨hwo, ?_⟩
        intro hx
        rcases List.mem_cons.mp hx with hx | hx
        · exact hne hx
        · exact hnr hx
      · rintro ⟨hwo, hn⟩
        exact ⟨⟨hwo, fun hx => hn (List.mem_cons.mpr (Or.inl hx))⟩,
          fun hx => hn (List.mem_cons_of_mem _ hx)⟩
    · simp only [closeWithExit, if_neg h]
      rw [ih]
      constructor
      · rintro ⟨hwo, hnr⟩
        refine ⟨hwo, ?_⟩
        intro hx
        rcases List.mem_cons.mp hx with hx | hx
        · exact h (hx ▸ hwo)
        · exact hnr hx
      · rintro ⟨hwo, hn⟩
        exact ⟨hwo, fun hx => hn (List.mem_cons_of_mem _ hx)⟩

theorem countSendExit_closeWithExit (code : Nat) (o ts : List Nat) (w : Nat) :
    countSendExit w (closeWithExit code o ts).2 =
      if w ∈ o ∧ w ∈ ts then 1 else 0 := by
  induction ts generalizing o with
  | nil => simp [closeWithExit, countSendExit]
  | cons ws rest ih =>
    by_cases h : ws ∈ o
    · simp only [closeWithExit, if_pos h]
      rw [countSendExit_cons, countSendExit_cons]
      by_cases hw : w = ws
      · subst hw
        rw [if_pos (by simp [isSendExitTo]), if_neg (by simp [isSendExitTo])]
        rw [ih]
        rw [if_neg ?hc, if_pos ⟨h, List.mem_cons.mpr (Or.inl rfl)⟩]
        rintro ⟨hx, _⟩
        rw [List.mem_filter] at hx
        simp at hx
      · rw [if_neg (by simp [isSendExitTo, Ne.symm hw]),
          if_neg (by simp [isSendExitTo])]
        rw [ih]
        refine if_congr ?_ rfl rfl
        simp only [List.mem_filter, decide_eq_true_eq]
        constructor
        · rintro ⟨⟨hwo, _⟩, hr⟩
          exact ⟨hwo, List.mem_cons_of_mem _ hr⟩
        · rintro ⟨hwo, hr⟩
          rcases List.mem_cons.mp hr with hx | hx
          · exact absurd hx hw
          · exact ⟨⟨hwo, hw⟩, hx⟩
    · simp only [closeWithExit, if_neg h]
      rw [ih]
      refine if_congr ?_ rfl rfl
      constructor
      · rintro ⟨hwo, hr⟩
        exact ⟨hwo, List.mem_cons_of_mem _ hr⟩
      · rintro ⟨hwo, hr⟩
        rcases List.mem_cons.mp hr with hx | hx
        · exact absurd (hx ▸ hwo) h
        · exact ⟨hwo, hx⟩

theorem countClose_closeWithExit (code : Nat) (o ts : List Nat) (w : Nat) :
    countClose w (closeWithExit code o ts).2 =
      if w ∈ o ∧ w ∈ ts then 1 else 0 := by
  induction ts generalizing o with
  | nil => simp [closeWithExit, countClose]
  | cons ws rest ih =>
    by_cases h : ws ∈ o
    · simp only [closeWithExit, if_pos h]
      rw [countClose_cons, countClose_cons]
      by_cases hw : w = ws
      · subst hw
        rw [if_neg (by simp [isCloseOf]), if_pos (by simp [isCloseOf])]
        rw [ih]
        rw [if_neg ?hc, if_pos ⟨h, List.mem_cons.mpr (Or.inl rfl)⟩]
        rintro ⟨hx, _⟩
        rw [List.mem_filter] at hx
        simp at hx
      · rw [if_neg (by simp [isCloseOf]),
          if_neg (by simp [isCloseOf, Ne.symm hw])]
        rw [ih]
        refine if_congr ?_ rfl rfl
        simp only [List.mem_filter, decide_eq_true_eq]
        constructor
        · rintro ⟨⟨hwo, _⟩, hr⟩
          exact ⟨hwo, List.mem_cons_of_mem _ hr⟩
        · rintro ⟨hwo, hr⟩
          rcases List.mem_cons.mp hr with hx | hx
          · exact absurd hx hw
          · exact ⟨⟨hwo, hw⟩, hx⟩
    · simp only [closeWithExit, if_neg h]
      rw [ih]
      refine if_congr ?_ rfl rfl
      constructor
      · rintro ⟨hwo, hr⟩
        exact ⟨hwo, List.mem_cons_of_mem _ hr⟩
      · rintro ⟨hwo, hr⟩
        rcases List.mem_cons.mp hr with hx | hx
        · exact absurd (hx ▸ hwo) h
        · exact ⟨hwo, hx⟩

/-- Every `exit` message in a `closeWithExit` trace carries `code`. -/
theorem sendExit_code_closeWithExit {code : Nat} {o ts : List Nat} {w c' : Nat}
    (hm : Event.sendExit w c' ∈ (closeWithExit code o ts).2) : c' = code := by
  induction ts generalizing o with
  | nil => simp [closeWithExit] at hm
  | cons ws rest ih =>
    by_cases h : ws ∈ o
    · simp only [closeWithExit, if_pos h, List.mem_cons] at hm
      rcases hm with he | he | hm
      · exact (Event.sendExit.injEq _ _ _ _ ▸ he).2
      · exact Event.noConfusion he
      · exact ih hm
    · simp only [closeWithExit, if_neg h] at hm
      exact ih hm

/-- A positive send count yields an actual `exit` message in the trace. -/
theorem exists_sendExit_of_count_ne_zero {w : Nat} {evs : List Event}
    (h : countSendExit w evs ≠ 0) : ∃ c, Event.sendExit w c ∈ evs := by
  induction evs with
  | nil => simp [countSendExit] at h
  | cons e rest ih =>
    rw [countSendExit_cons] at h
    by_cases hp : isSendExitTo w e = true
    · cases e with
      | sendExit w' c =>
        have hw : w' = w := by simpa [isSendExitTo] using hp
        exact ⟨c, hw ▸ List.mem_cons.mpr (Or.inl rfl)⟩
      | spawnPty p => simp [isSendExitTo] at hp
      | sendError x => simp [isSendExitTo] at hp
      | closeWs x => simp [isSendExitTo] at hp
      | killPty p ok => simp [isSendExitTo] at hp
      | ptyWrite p d => simp [isSendExitTo] at hp
      | ptyResize p c r => simp [isSendExitTo] at hp
    · rw [if_neg hp] at h
      obtain ⟨c, hc⟩ := ih h
      exact ⟨c, List.mem_cons_of_mem _ hc⟩

/-- An open target socket does get the `exit` message, with `code`. -/
theorem sendExit_mem_closeWithExit {code : Nat} {o ts : List Nat} {w : Nat}
    (ho : w ∈ o) (ht : w ∈ ts) :
    Event.sendExit w code ∈ (closeWithExit code o ts).2 := by
  have h := countSendExit_closeWithExit code o ts w
  rw [if_pos ⟨ho, ht⟩] at h
  have hne : countSendExit w (closeWithExit code o ts).2 ≠ 0 := by omega
  obtain ⟨c, hc⟩ := exists_sendExit_of_count_ne_zero hne
  have := sendExit_code_closeWithExit hc
  exact this ▸ hc

/-- An open target socket is closed. -/
theorem closeWs_mem_closeWithExit {code : Nat} {o ts : List Nat} {w : Nat}
    (ho : w ∈ o) (ht : w ∈ ts) :
    Event.closeWs w ∈ (closeWithExit code o ts).2 := by
  induction ts generalizing o with
  | nil => simp at ht
  | cons ws rest ih =>
    by_cases h : ws ∈ o
    · simp only [closeWithExit, if_pos h, List.mem_cons]
      by_cases hw : w = ws
      · exact Or.inr (Or.inl (by rw [hw]))
      · refine Or.inr (Or.inr (ih ?_ ?_))
        · simp [List.mem_filter, ho, hw]
        · rcases List.mem_cons.mp ht with hx | hx
          · exact absurd hx hw
          · exact hx
    · simp only [closeWithExit, if_neg h]
      refine ih ho ?_
      rcases List.mem_cons.mp ht with hx | hx
      · exact absurd (hx ▸ ho) h
      · exact hx

/-! ## `cleanupSession` unfolding lemmas -/

theorem cleanupCore_absent {env : Env} {st : SysState} {n : JStr}
    (h : alookup st.sessions n = none) :
    cleanupSessionCore env st n = (st, []) := by
  simp [cleanupSessionCore, h]

theorem cleanupCore_present {env : Env} {st : SysState} {n : JStr}
    {s : PtySession} (h : alookup st.sessions n = some s) :
    cleanupSessionCore env st n =
      ({ st with sessions := adel st.sessions n,
                 openWs := (closeWithExit 0 st.openWs s.subscribers).1 },
        (closeWithExit 0 st.openWs s.subscribers).2 ++
          [.killPty s.ptyId (env.killOk s.ptyId)]) := by
  simp [cleanupSessionCore, h]

theorem cleanupSession_ok {env : Env} {st : SysState} {username n : JStr}
    (hv : validateAndNormalizeUsername username = .ok n) :
    cleanupSession env st username = .ok (cleanupSessionCore env st n) := by
  simp [cleanupSession, hv]

theorem countClose_kill (ws p : Nat) (b : Bool) :
    countClose ws [Event.killPty p b] = 0 := by
  simp [countClose, isCloseOf]

theorem countSendExit_kill (ws p : Nat) (b : Bool) :
    countSendExit ws [Event.killPty p b] = 0 := by
  simp [countSendExit, isSendExitTo]

/-- `cleanupSession` preserves the key-uniqueness of the registry. -/
theorem cleanupCore_keys_nodup {env : Env} {st : SysState} {n : JStr}
    (h : (keys st.sessions).Nodup) :
    (keys (cleanupSessionCore env st n).1.sessions).Nodup := by
  cases hs : alookup st.sessions n with
  | none => rw [cleanupCore_absent hs]; exact h
  | some s => rw [cleanupCore_present hs]; exact keys_adel_nodup n h

/-- C4 — `cleanupSession` is idempotent: on a valid identity with no
registered session it is an error-free no-op; it never throws; called a
second time right after (under any environment `env'`) it does nothing,
so each viewer's channel is notified and closed at most once across both
calls; and the registry entry is gone afterwards no matter whether
`pty.kill()` succeeded (`env.killOk` is arbitrary). -/
theorem c4_cleanup_idempotent (env env' : Env) (st : SysState)
    (username n : JStr)
    (hv : validateAndNormalizeUsername username = .ok n)
    (hnd : (keys st.sessions).Nodup) :
    (alookup st.sessions n = none →
      cleanupSession env st username = .ok (st, [])) ∧
    cleanupSession env st username = .ok (cleanupSessionCore env st n) ∧
    cleanupSession env' (cleanupSessionCore env st n).1 username =
      .ok ((cleanupSessionCore env st n).1, []) ∧
    (∀ ws, countClose ws (cleanupSessionCore env st n).2 ≤ 1) ∧
    (∀ ws, countSendExit ws (cleanupSessionCore env st n).2 ≤ 1) ∧
    alookup (cleanupSessionCore env st n).1.sessions n = none := by
  refine ⟨?_, cleanupSession_ok hv, ?_, ?_, ?_, ?_⟩
  · intro habs
    rw [cleanupSession_ok hv, cleanupCore_absent habs]
  · cases hs : alookup st.sessions n with
    | none =>
      rw [cleanupCore_absent hs, cleanupSession_ok hv, cleanupCore_absent hs]
    | some s =>
      rw [cleanupCore_present hs, cleanupSession_ok hv]
      rw [cleanupCore_absent (alookup_adel_self hnd)]
  · intro ws
    cases hs : alookup st.sessions n with
    | none =>
      rw [cleanupCore_absent hs]
      simp [countClose]
    | some s =>
      rw [cleanupCore_present hs]
      rw [countClose_append, countClose_kill, countClose_closeWithExit]
      split <;> omega
  · intro ws
    cases hs : alookup st.sessions n with
    | none =>
      rw [cleanupCore_absent hs]
      simp [countSendExit]
    | some s =>
      rw [cleanupCore_present hs]
      rw [countSendExit_append, countSendExit_kill, countSendExit_closeWithExit]
      split <;> omega
  · cases hs : alookup st.sessions n with
    | none =>
      rw [cleanupCore_absent hs]
      exact hs
    | some s =>
      rw [cleanupCore_present hs]
      exact alookup_adel_self hnd

/-- C10 — whenever `cleanupSession` tears down a session (whatever the
trigger), every subscriber whose channel is open is sent exactly one
`exit` message and that message carries code `0` (the hardcoded constant,
independent of any actual process exit code), and its channel is closed;
subscribers whose channel is not open receive no notification and no
close.  Indeed every `exit` message in the teardown trace carries `0`. -/
theorem c10_cleanup_exit_code_zero (env : Env) (st : SysState)
    (username n : JStr) (s : PtySession)
    (hv : validateAndNormalizeUsername username = .ok n)
    (hs : alookup st.sessions n = some s) :
    cleanupSession env st username = .ok (cleanupSessionCore env st n) ∧
    (∀ ws ∈ s.subscribers, ws ∈ st.openWs →
      countSendExit ws (cleanupSessionCore env st n).2 = 1 ∧
      Event.sendExit ws 0 ∈ (cleanupSessionCore env st n).2 ∧
      Event.closeWs ws ∈ (cleanupSessionCore env st n).2) ∧
    (∀ ws ∈ s.subscribers, ws ∉ st.openWs →
      countSendExit ws (cleanupSessionCore env st n).2 = 0 ∧
      countClose ws (cleanupSessionCore env st n).2 = 0) ∧
    (∀ w c, Event.sendExit w c ∈ (cleanupSessionCore env st n).2 → c = 0) := by
  refine ⟨cleanupSession_ok hv, ?_, ?_, ?_⟩
  · intro ws hsub hopen
    rw [cleanupCore_present hs]
    refine ⟨?_, ?_, ?_⟩
    · rw [countSendExit_append, countSendExit_kill,
        countSendExit_closeWithExit, if_pos ⟨hopen, hsub⟩]
    · exact List.mem_append_left _ (sendExit_mem_closeWithExit hopen hsub)
    · exact List.mem_append_left _ (closeWs_mem_closeWithExit hopen hsub)
  · intro ws hsub hclosed
    rw [cleanupCore_present hs]
    constructor
    · rw [countSendExit_append, countSendExit_kill,
        countSendExit_closeWithExit, if_neg (fun hx => hclosed hx.1)]
    · rw [countClose_append, countClose_kill,
        countClose_closeWithExit, if_neg (fun hx => hclosed hx.1)]
  · intro w c hm
    rw [cleanupCore_present hs] at hm
    rcases List.mem_append.mp hm with hm | hm
    · exact sendExit_code_closeWithExit hm
    · rw [List.mem_singleton] at hm
      exact Event.noConfusion hm

/-! ## Concrete fixtures for witnesses and counterexamples -/

deriving instance DecidableEq for Except

/-- A test environment: clock at 1000, `pty.kill()` always throws. -/
def envA : Env := ⟨1000, fun _ => false⟩

/-- A test environment: clock at 2000, `pty.kill()` always succeeds. -/
def envB : Env := ⟨2000, fun _ => true⟩

/-- A session with pty 0 and the single subscriber 7. -/
def sessA : PtySession := ⟨0, 5, 5, [7]⟩

/-- A state with one session for `"a"`, socket 7 open. -/
def stA : SysState := ⟨[(['a'], sessA)], 1, [7], [(0, 7)], [(0, ['a'])]⟩

theorem c4_witness :
    (validateAndNormalizeUsername ['b'] = .ok ['b'] ∧
      (keys stA.sessions).Nodup ∧ alookup stA.sessions ['b'] = none) ∧
    cleanupSession envA stA ['b'] = .ok (stA, []) :=
  ⟨⟨by decide, by decide, by decide⟩,
    (c4_cleanup_idempotent envA envA stA ['b'] ['b'] (by decide)
      (by decide)).1 (by decide)⟩

theorem c10_witness :
    (validateAndNormalizeUsername ['a'] = .ok ['a'] ∧
      alookup stA.sessions ['a'] = some sessA ∧
      7 ∈ sessA.subscribers ∧ 7 ∈ stA.openWs) ∧
    (countSendExit 7 (cleanupSessionCore envA stA ['a']).2 = 1 ∧
      Event.sendExit 7 0 ∈ (cleanupSessionCore envA stA ['a']).2 ∧
      Event.closeWs 7 ∈ (cleanupSessionCore envA stA ['a']).2) :=
  ⟨⟨by decide, by decide, by decide, by decide⟩,
    (c10_cleanup_exit_code_zero envA stA ['a'] ['a'] sessA (by decide)
      (by decide)).2.1 7 (by decide) (by decide)⟩

/-- C8 — every username `validateAndNormalizeUsername` returns is
non-empty, at most 32 characters, drawn from `[a-z0-9_-]` only (hence is
never `.` or `..`, contains no `/` or `\` and no `..` substring), and
re-normalizing the result returns it unchanged (idempotence). -/
theorem c8_username_normalization (u r : JStr)
    (h : validateAndNormalizeUsername u = .ok r) :
    r ≠ [] ∧ r.length ≤ 32 ∧ (∀ c ∈ r, isUserChar c = true) ∧
    r ≠ ['.'] ∧ r ≠ ['.', '.'] ∧ hasDotDot r = false ∧
    (∀ c ∈ r, c ≠ '/' ∧ c ≠ '\\') ∧
    validateAndNormalizeUsername r = .ok r := by
  obtain ⟨hne, hlen, hchars, hdd⟩ := validate_ok_spec h
  refine ⟨hne, hlen, hchars, ?_, ?_, hdd, ?_, validate_ok_idem h⟩
  · intro hdot
    rw [hdot] at hchars
    have := hchars '.' (by simp)
    simp [isUserChar] at this
  · intro hdot
    rw [hdot] at hchars
    have := hchars '.' (by simp)
    simp [isUserChar] at this
  · intro c hc
    have hcc := hchars c hc
    constructor <;> intro he <;> subst he <;> simp [isUserChar] at hcc

theorem c8_witness :
    validateAndNormalizeUsername [' ', 'A'] = .ok ['a'] ∧
    validateAndNormalizeUsername ['a'] = .ok ['a'] :=
  ⟨by decide,
    (c8_username_normalization [' ', 'A'] ['a'] (by decide)).2.2.2.2.2.2.2⟩

/-! ## `getOrCreateSession` branch lemmas -/

theorem triple_eq {A B C : Type} {a a' : A} {b b' : B} {c c' : C}
    (h : (a, b, c) = (a', b', c')) : a = a' ∧ b = b' ∧ c = c' := by
  injection h with h1 h2
  injection h2 with h2 h3
  exact ⟨h1, h2, h3⟩

/-- `getOrCreateSession` with `forceNew = false` on an existing session:
refresh the timestamp and return it, no events. -/
theorem getOrCreate_reuse {env : Env} {st : SysState} {username n : JStr}
    {s : PtySession} (hv : validateAndNormalizeUsername username = .ok n)
    (hs : alookup st.sessions n = some s) :
    getOrCreateSession env st username false =
      .ok ({ st with sessions := aset st.sessions n ({ s with lastActivity := env.now }) },
        [], { s with lastActivity := env.now }) := by
  simp [getOrCreateSession, hv, hs]

/-- `getOrCreateSession` with `forceNew = false` and no existing session:
falls through to `createSession`. -/
theorem getOrCreate_create {env : Env} {st : SysState} {username n : JStr}
    (hv : validateAndNormalizeUsername username = .ok n)
    (hs : alookup st.sessions n = none) :
    getOrCreateSession env st username false =
      .ok ({ st with
          sessions := aset st.sessions n ⟨st.nextPty, env.now, env.now, []⟩,
          nextPty := st.nextPty + 1,
          mgrExitHandlers := st.mgrExitHandlers ++ [(st.nextPty, n)] },
        [.spawnPty st.nextPty], ⟨st.nextPty, env.now, env.now, []⟩) := by
  simp [getOrCreateSession, hv, hs, createSession, validate_ok_idem hv,
    validatePath_of_valid hv]

/-- `getOrCreateSession` with `forceNew = true` on an existing session:
tear the old session down, then create and register a fresh one. -/
theorem getOrCreate_force {env : Env} {st : SysState} {username n : JStr}
    {s : PtySession} (hv : validateAndNormalizeUsername username = .ok n)
    (hs : alookup st.sessions n = some s)
    (hnd : (keys st.sessions).Nodup) :
    getOrCreateSession env st username true =
      .ok ({ st with
          sessions := aset (adel st.sessions n) n ⟨st.nextPty, env.now, env.now, []⟩,
          nextPty := st.nextPty + 1,
          openWs := (closeWithExit 0 st.openWs s.subscribers).1,
          mgrExitHandlers := st.mgrExitHandlers ++ [(st.nextPty, n)] },
        ((closeWithExit 0 st.openWs s.subscribers).2 ++
          [.killPty s.ptyId (env.killOk s.ptyId)]) ++ [.spawnPty st.nextPty],
        ⟨st.nextPty, env.now, env.now, []⟩) := by
  have h1 : alookup (adel st.sessions n) n = none := alookup_adel_self hnd
  simp [getOrCreateSession, hv, hs, cleanupCore_present hs, h1,
    createSession, validate_ok_idem hv, validatePath_of_valid hv]

/-- Whatever branch `getOrCreateSession` takes, the returned session is
registered under the normalized name in the returned state. -/
theorem getOrCreate_lookup {env : Env} {st st1 : SysState}
    {username n : JStr} {s1 : PtySession} {evs1 : List Event} {fn : Bool}
    (hv : validateAndNormalizeUsername username = .ok n)
    (h1 : getOrCreateSession env st username fn = .ok (st1, evs1, s1)) :
    alookup st1.sessions n = some s1 := by
  simp only [getOrCreateSession, hv] at h1
  set step := if fn = true ∧ (alookup st.sessions n).isSome = true then
    cleanupSessionCore env st n else (st, []) with hstep
  cases hls : alookup step.1.sessions n with
  | some s =>
    rw [hls] at h1
    injection h1 with h1
    obtain ⟨hst, _, hsess⟩ := triple_eq h1
    rw [← hst, ← hsess]
    exact alookup_aset_self ..
  | none =>
    rw [hls] at h1
    simp only [createSession, validate_ok_idem hv,
      validatePath_of_valid hv] at h1
    injection h1 with h1
    obtain ⟨hst, _, hsess⟩ := triple_eq h1
    rw [← hst, ← hsess]
    exact alookup_aset_self ..

/-- Number of registry entries stored under key `k`. -/
def countKey {κ α : Type} [DecidableEq κ] (k : κ) (l : List (κ × α)) : Nat :=
  (l.filter (fun e => decide (e.1 = k))).length

theorem countKey_eq_zero_of_not_mem {κ α : Type} [DecidableEq κ]
    {l : List (κ × α)} {k : κ} (h : k ∉ keys l) : countKey k l = 0 := by
  induction l with
  | nil => rfl
  | cons e rest ih =>
    obtain ⟨k', v'⟩ := e
    simp only [keys, List.map_cons, List.mem_cons] at h
    push_neg at h
    have h1 : ¬k' = k := fun he => h.1 he.symm
    simp only [countKey, List.filter_cons, decide_eq_true_eq, h1,
      if_false]
    exact ih (by simpa [keys] using h.2)

theorem countKey_aset_of_nodup {κ α : Type} [DecidableEq κ]
    {l : List (κ × α)} (k : κ) (v : α) (h : (keys l).Nodup) :
    countKey k (aset l k v) = 1 := by
  induction l with
  | nil => simp [aset, countKey]
  | cons e rest ih =>
    obtain ⟨k', v'⟩ := e
    simp only [keys, List.map_cons, List.nodup_cons] at h
    by_cases he : k' = k
    · subst he
      have h0 : countKey k' rest = 0 :=
        countKey_eq_zero_of_not_mem (by simpa [keys] using h.1)
      have ha : aset ((k', v') :: rest) k' v = (k', v) :: rest := by
        simp [aset]
      rw [ha]
      simp only [countKey] at h0 ⊢
      simp [h0]
    · simp only [aset, if_neg he, countKey, List.filter_cons,
        decide_eq_true_eq, he, if_false]
      have := ih h.2
      rw [countKey] at this
      exact this

/-- C1 (amended) — `getOrCreateSession(username, true)` on an identity
with a registered session first destroys that session — sending every
attached viewer *whose channel is open* an `exit` notification and
closing it, and killing the old session's process — and only then spawns
and registers a fresh session, so that afterwards exactly one session is
registered for that identity (the teardown trace precedes the spawn
event).  The original claim, which promised the notification to *every*
attached viewer, fails for a viewer whose channel is no longer open; see
the counterexample. -/
theorem c1_forceNew_replaces_session (env : Env) (st : SysState)
    (username n : JStr) (old : PtySession)
    (hv : validateAndNormalizeUsername username = .ok n)
    (hs : alookup st.sessions n = some old)
    (hnd : (keys st.sessions).Nodup) :
    getOrCreateSession env st username true =
      .ok ({ st with
          sessions := aset (adel st.sessions n) n ⟨st.nextPty, env.now, env.now, []⟩,
          nextPty := st.nextPty + 1,
          openWs := (closeWithExit 0 st.openWs old.subscribers).1,
          mgrExitHandlers := st.mgrExitHandlers ++ [(st.nextPty, n)] },
        ((closeWithExit 0 st.openWs old.subscribers).2 ++
          [.killPty old.ptyId (env.killOk old.ptyId)]) ++ [.spawnPty st.nextPty],
        ⟨st.nextPty, env.now, env.now, []⟩) ∧
    alookup (aset (adel st.sessions n) n (⟨st.nextPty, env.now, env.now, []⟩ : PtySession)) n =
      some ⟨st.nextPty, env.now, env.now, []⟩ ∧
    countKey n (aset (adel st.sessions n) n (⟨st.nextPty, env.now, env.now, []⟩ : PtySession)) = 1 ∧
    (∀ ws ∈ old.subscribers, ws ∈ st.openWs →
      Event.sendExit ws 0 ∈ (closeWithExit 0 st.openWs old.subscribers).2 ∧
      Event.closeWs ws ∈ (closeWithExit 0 st.openWs old.subscribers).2) := by
  refine ⟨getOrCreate_force hv hs hnd, alookup_aset_self .., ?_, ?_⟩
  · exact countKey_aset_of_nodup _ _ (keys_adel_nodup n hnd)
  · intro ws h1 h2
    exact ⟨sendExit_mem_closeWithExit h2 h1, closeWs_mem_closeWithExit h2 h1⟩

/-- A session for `"a"` whose only subscriber, socket 7, is *not* open
(its close is in flight): `openWs` is empty. -/
def stB : SysState := ⟨[(['a'], sessA)], 1, [], [], [(0, ['a'])]⟩

/-- C1, counterexample to the claim as stated: with the attached viewer 7
no longer open, `getOrCreateSession (..) true` replaces the session but
sends *no* `exit` notification to viewer 7. -/
theorem c1_counterexample :
    7 ∈ sessA.subscribers ∧
    getOrCreateSession envB stB ['a'] true =
      .ok (⟨[(['a'], ⟨1, 2000, 2000, []⟩)], 2, [], [], [(0, ['a']), (1, ['a'])]⟩,
        [Event.killPty 0 true, Event.spawnPty 1], ⟨1, 2000, 2000, []⟩) ∧
    countSendExit 7 [Event.killPty 0 true, Event.spawnPty 1] = 0 := by
  decide

theorem c1_witness :
    (validateAndNormalizeUsername ['a'] = .ok ['a'] ∧
      alookup stA.sessions ['a'] = some sessA ∧ (keys stA.sessions).Nodup) ∧
    (∀ ws ∈ sessA.subscribers, ws ∈ stA.openWs →
      Event.sendExit ws 0 ∈ (closeWithExit 0 stA.openWs sessA.subscribers).2 ∧
      Event.closeWs ws ∈ (closeWithExit 0 stA.openWs sessA.subscribers).2) :=
  ⟨⟨by decide, by decide, by decide⟩,
    (c1_forceNew_replaces_session envB stA ['a'] ['a'] sessA (by decide)
      (by decide) (by decide)).2.2.2⟩

/-- C2 — two successive `getOrCreateSession(username, false)` calls with
no destroy in between: the second call returns the very session the first
call returned (same pty, same creation time, same subscribers), only its
last-activity timestamp is refreshed to the second call's clock; the
second call emits no events (in particular no spawn) and leaves the
pty counter unchanged. -/
theorem c2_getOrCreate_reuses_session (env1 env2 : Env) (st st1 : SysState)
    (username n : JStr) (s1 : PtySession) (evs1 : List Event)
    (hv : validateAndNormalizeUsername username = .ok n)
    (h1 : getOrCreateSession env1 st username false = .ok (st1, evs1, s1)) :
    getOrCreateSession env2 st1 username false =
      .ok ({ st1 with sessions := aset st1.sessions n ({ s1 with lastActivity := env2.now }) },
        [], { s1 with lastActivity := env2.now }) ∧
    ({ st1 with sessions := aset st1.sessions n ({ s1 with lastActivity := env2.now }) } : SysState).nextPty = st1.nextPty ∧
    ({ s1 with lastActivity := env2.now } : PtySession).ptyId = s1.ptyId ∧
    ({ s1 with lastActivity := env2.now } : PtySession).created = s1.created ∧
    ({ s1 with lastActivity := env2.now } : PtySession).subscribers = s1.subscribers ∧
    ({ s1 with lastActivity := env2.now } : PtySession).lastActivity = env2.now := by
  have hl := getOrCreate_lookup hv h1
  exact ⟨getOrCreate_reuse hv hl, rfl, rfl, rfl, rfl, rfl⟩

/-- The session of `stA` after a first `getOrCreateSession` under `envA`. -/
def sessA1 : PtySession := ⟨0, 5, 1000, [7]⟩

/-- The state of `stA` after that first call. -/
def stA1 : SysState := ⟨[(['a'], sessA1)], 1, [7], [(0, 7)], [(0, ['a'])]⟩

theorem c2_witness :
    (validateAndNormalizeUsername ['a'] = .ok ['a'] ∧
      getOrCreateSession envA stA ['a'] false = .ok (stA1, [], sessA1)) ∧
    getOrCreateSession envB stA1 ['a'] false =
      .ok ({ stA1 with sessions := aset stA1.sessions ['a'] ({ sessA1 with lastActivity := envB.now }) },
        [], { sessA1 with lastActivity := envB.now }) :=
  ⟨⟨by decide, by decide⟩,
    (c2_getOrCreate_reuses_session envA envB stA stA1 ['a'] ['a'] sessA1 []
      (by decide) (by decide)).1⟩

/-- C3 (amended) — when the pty of a registered session exits, the
manager's exit handler (registered first) tears the session down: the
session is removed from the registry, every attached viewer whose channel
is open receives exactly one `exit` message, and attached viewers whose
channel is not open receive none; the per-connection `once('exit')`
handlers that run afterwards find the notified sockets already closed and
send nothing more.  When the exit follows an explicit destroy of the same
session, the combined trace of destroy-then-exit still delivers exactly
one `exit` message to each open attached viewer and none to the others.
The original claim promised exactly one message to *every* attached
viewer; it fails for a viewer whose channel is not open (see the
counterexample). -/
theorem c3_process_exit_notifies_once (env env2 : Env) (st : SysState)
    (n : JStr) (p code : Nat) (s : PtySession)
    (hv : validateAndNormalizeUsername n = .ok n)
    (hh : alookup st.mgrExitHandlers p = some n)
    (hs : alookup st.sessions n = some s)
    (hnd : (keys st.sessions).Nodup) :
    cleanupSession env st n =
      .ok ({ st with sessions := adel st.sessions n, openWs := (closeWithExit 0 st.openWs s.subscribers).1 },
        (closeWithExit 0 st.openWs s.subscribers).2 ++ [.killPty s.ptyId (env.killOk s.ptyId)]) ∧
    processExit env st p code =
      .ok ({ st with
          sessions := adel st.sessions n,
          openWs := (closeWithExit code (closeWithExit 0 st.openWs s.subscribers).1 ((st.exitListeners.filter (fun e => e.1 == p)).map Prod.snd)).1,
          exitListeners := st.exitListeners.filter (fun e => !(e.1 == p)),
          mgrExitHandlers := adel st.mgrExitHandlers p },
        ((closeWithExit 0 st.openWs s.subscribers).2 ++ [.killPty s.ptyId (env.killOk s.ptyId)]) ++
          (closeWithExit code (closeWithExit 0 st.openWs s.subscribers).1 ((st.exitListeners.filter (fun e => e.1 == p)).map Prod.snd)).2) ∧
    alookup (adel st.sessions n) n = none ∧
    (∀ ws ∈ s.subscribers,
      countSendExit ws (((closeWithExit 0 st.openWs s.subscribers).2 ++ [.killPty s.ptyId (env.killOk s.ptyId)]) ++
        (closeWithExit code (closeWithExit 0 st.openWs s.subscribers).1 ((st.exitListeners.filter (fun e => e.1 == p)).map Prod.snd)).2) =
        if ws ∈ st.openWs then 1 else 0) ∧
    processExit env2 { st with sessions := adel st.sessions n, openWs := (closeWithExit 0 st.openWs s.subscribers).1 } p code =
      .ok ({ st with
          sessions := adel st.sessions n,
          openWs := (closeWithExit code (closeWithExit 0 st.openWs s.subscribers).1 ((st.exitListeners.filter (fun e => e.1 == p)).map Prod.snd)).1,
          exitListeners := st.exitListeners.filter (fun e => !(e.1 == p)),
          mgrExitHandlers := adel st.mgrExitHandlers p },
        (closeWithExit code (closeWithExit 0 st.openWs s.subscribers).1 ((st.exitListeners.filter (fun e => e.1 == p)).map Prod.snd)).2) := by
  have hca : cleanupSession env st n =
      .ok ({ st with sessions := adel st.sessions n, openWs := (closeWithExit 0 st.openWs s.subscribers).1 },
        (closeWithExit 0 st.openWs s.subscribers).2 ++ [.killPty s.ptyId (env.killOk s.ptyId)]) := by
    rw [cleanupSession_ok hv, cleanupCore_present hs]
  refine ⟨hca, ?_, alookup_adel_self hnd, ?_, ?_⟩
  · simp only [processExit, hh, hca]
  · intro ws hws
    rw [countSendExit_append, countSendExit_append, countSendExit_kill,
      countSendExit_closeWithExit, countSendExit_closeWithExit]
    by_cases ho : ws ∈ st.openWs
    · rw [if_pos ⟨ho, hws⟩, if_pos ho, if_neg ?_]
      intro hx
      exact ((closeWithExit_mem_open 0 st.openWs s.subscribers ws).mp hx.1).2 hws
    · rw [if_neg (fun hx => ho hx.1), if_neg ho, if_neg ?_]
      intro hx
      exact ho ((closeWithExit_mem_open 0 st.openWs s.subscribers ws).mp hx.1).1
  · have hcb : cleanupSession env2 { st with sessions := adel st.sessions n, openWs := (closeWithExit 0 st.openWs s.subscribers).1 } n =
        .ok ({ st with sessions := adel st.sessions n, openWs := (closeWithExit 0 st.openWs s.subscribers).1 }, []) := by
      rw [cleanupSession_ok hv, cleanupCore_absent (alookup_adel_self hnd)]
    simp only [processExit, hh, hcb, List.nil_append]

/-- C3, counterexample to the claim as stated: viewer 7 is attached to
the session when its pty (id 0) exits, but its channel is not open, so it
receives zero `exit` messages, not one. -/
theorem c3_counterexample :
    7 ∈ sessA.subscribers ∧ alookup stB.sessions ['a'] = some sessA ∧
    processExit envB stB 0 3 = .ok (⟨[], 1, [], [], []⟩, [Event.killPty 0 true]) ∧
    countSendExit 7 [Event.killPty 0 true] = 0 := by
  decide

theorem c3_witness :
    (validateAndNormalizeUsername ['a'] = .ok ['a'] ∧
      alookup stA.mgrExitHandlers 0 = some ['a'] ∧
      alookup stA.sessions ['a'] = some sessA ∧
      (keys stA.sessions).Nodup ∧ 7 ∈ sessA.subscribers) ∧
    countSendExit 7 (((closeWithExit 0 stA.openWs sessA.subscribers).2 ++ [Event.killPty sessA.ptyId (envB.killOk sessA.ptyId)]) ++
        (closeWithExit 3 (closeWithExit 0 stA.openWs sessA.subscribers).1 ((stA.exitListeners.filter (fun e => e.1 == 0)).map Prod.snd)).2) =
      if 7 ∈ stA.openWs then 1 else 0 :=
  ⟨⟨by decide, by decide, by decide, by decide, by decide⟩,
    (c3_process_exit_notifies_once envB envA stA ['a'] 0 3 sessA (by decide)
      (by decide) (by decide) (by decide)).2.2.2.1 7 (by decide)⟩

/-! ## Lemmas for the idle sweep -/

theorem alookup_append_right {κ α : Type} [DecidableEq κ]
    {pre l : List (κ × α)} {k : κ} (h : k ∉ keys pre) :
    alookup (pre ++ l) k = alookup l k := by
  induction pre with
  | nil => rfl
  | cons e rest ih =>
    obtain ⟨k', v'⟩ := e
    simp only [keys, List.map_cons, List.mem_cons] at h
    push_neg at h
    have h1 : ¬k' = k := fun he => h.1 he.symm
    simp only [List.cons_append, alookup, if_neg h1]
    exact ih (by simpa [keys] using h.2)

theorem adel_append_right {κ α : Type} [DecidableEq κ]
    {pre l : List (κ × α)} {k : κ} (h : k ∉ keys pre) :
    adel (pre ++ l) k = pre ++ adel l k := by
  induction pre with
  | nil => rfl
  | cons e rest ih =>
    obtain ⟨k', v'⟩ := e
    simp only [keys, List.map_cons, List.mem_cons] at h
    push_neg at h
    have h1 : ¬k' = k := fun he => h.1 he.symm
    simp only [List.cons_append, adel, if_neg h1]
    exact congrArg (List.cons (k', v')) (ih (by simpa [keys] using h.2))

theorem adel_cons_self {κ α : Type} [DecidableEq κ]
    (k : κ) (v : α) (rest : List (κ × α)) :
    adel ((k, v) :: rest) k = rest := by
  simp [adel]

theorem keys_append {κ α : Type} (l1 l2 : List (κ × α)) :
    keys (l1 ++ l2) = keys l1 ++ keys l2 := by
  simp [keys]

/-- The inductive core of C5: folding the sweep body over a suffix
`entries` of the registry (with the already-visited prefix `pre`
untouched) destroys exactly the reapable entries of the suffix. -/
theorem sweepGo_spec (env : Env) (t : Int) :
    ∀ (entries pre : List (JStr × PtySession)) (st : SysState)
      (evs : List Event) (c : Nat),
      st.sessions = pre ++ entries →
      (keys (pre ++ entries)).Nodup →
      (∀ e ∈ entries, validateAndNormalizeUsername e.1 = .ok e.1) →
      ∃ st' evs2, sweepGo env t entries st evs c =
          .ok (st', evs ++ evs2,
            c + (entries.filter (fun e => decide (reapable env t e.2))).length) ∧
        st'.sessions = pre ++ entries.filter (fun e => !decide (reapable env t e.2)) := by
  intro entries
  induction entries with
  | nil =>
    intro pre st evs c hse hnd hvk
    exact ⟨st, [], by simp [sweepGo], by simpa using hse⟩
  | cons e rest ih =>
    obtain ⟨k, s⟩ := e
    intro pre st evs c hse hnd hvk
    have hkpre : k ∉ keys pre := by
      rw [keys_append] at hnd
      intro hx
      exact (List.disjoint_of_nodup_append hnd) hx
        (List.mem_cons.mpr (Or.inl rfl))
    have hlk : alookup st.sessions k = some s := by
      rw [hse, alookup_append_right hkpre]
      simp [alookup]
    by_cases hr : reapable env t s
    · have hv := hvk (k, s) (List.mem_cons.mpr (Or.inl rfl))
      have hclean : cleanupSession env st k =
          .ok ({ st with
              sessions := adel st.sessions k,
              openWs := (closeWithExit 0 st.openWs s.subscribers).1 },
            (closeWithExit 0 st.openWs s.subscribers).2 ++
              [.killPty s.ptyId (env.killOk s.ptyId)]) := by
        rw [cleanupSession_ok hv, cleanupCore_present hlk]
      have hsess1 : adel st.sessions k = pre ++ rest := by
        rw [hse, adel_append_right hkpre, adel_cons_self]
      have hnd1 : (keys (pre ++ rest)).Nodup := by
        refine List.Nodup.sublist ?_ hnd
        rw [keys_append, keys_append]
        exact List.Sublist.append (List.Sublist.refl _)
          (List.sublist_cons_self k (keys rest))
      obtain ⟨st', evs2, hrun, hsess'⟩ := ih pre
        ({ st with
          sessions := adel st.sessions k,
          openWs := (closeWithExit 0 st.openWs s.subscribers).1 })
        (evs ++ ((closeWithExit 0 st.openWs s.subscribers).2 ++
          [.killPty s.ptyId (env.killOk s.ptyId)]))
        (c + 1) hsess1 hnd1
        (fun e he => hvk e (List.mem_cons_of_mem _ he))
      refine ⟨st', ((closeWithExit 0 st.openWs s.subscribers).2 ++
        [.killPty s.ptyId (env.killOk s.ptyId)]) ++ evs2, ?_, ?_⟩
      · rw [sweepGo, if_pos hr, hclean]
        dsimp only
        rw [hrun, List.append_assoc]
        have hc : c + 1 + (List.filter (fun e => decide (reapable env t e.2)) rest).length =
            c + (List.filter (fun e => decide (reapable env t e.2)) ((k, s) :: rest)).length := by
          rw [List.filter_cons, if_pos (by simpa using hr)]
          simp only [List.length_cons]
          omega
        rw [hc]
      · rw [hsess', List.filter_cons, if_neg (by simpa using hr)]
    · have hsess1 : st.sessions = (pre ++ [(k, s)]) ++ rest := by
        rw [hse, List.append_assoc]
        rfl
      have hnd1 : (keys ((pre ++ [(k, s)]) ++ rest)).Nodup := by
        rw [List.append_assoc]
        exact hnd
      obtain ⟨st', evs2, hrun, hsess'⟩ := ih (pre ++ [(k, s)]) st evs c
        hsess1 hnd1 (fun e he => hvk e (List.mem_cons_of_mem _ he))
      refine ⟨st', evs2, ?_, ?_⟩
      · rw [sweepGo, if_neg hr, hrun]
        have hc : (List.filter (fun e => decide (reapable env t e.2)) ((k, s) :: rest)).length =
            (List.filter (fun e => decide (reapable env t e.2)) rest).length := by
          rw [List.filter_cons, if_neg (by simpa using hr)]
        rw [hc]
      · rw [hsess', List.filter_cons, if_pos (by simpa using hr),
          List.append_assoc]
        rfl

theorem alookup_filter_keep {κ α : Type} [DecidableEq κ]
    {l : List (κ × α)} {k : κ} {v : α} {p : κ × α → Bool}
    (hl : alookup l k = some v) (hp : p (k, v) = true) :
    alookup (l.filter p) k = some v := by
  induction l with
  | nil => exact Option.noConfusion hl
  | cons e rest ih =>
    obtain ⟨k', v'⟩ := e
    by_cases he : k' = k
    · subst he
      simp only [alookup, eq_self_iff_true, if_true, Option.some.injEq] at hl
      subst hl
      rw [List.filter_cons, if_pos hp]
      simp [alookup]
    · simp only [alookup, if_neg he] at hl
      rw [List.filter_cons]
      split
      · simp only [alookup, if_neg he]
        exact ih hl
      · exact ih hl

theorem alookup_filter_drop {κ α : Type} [DecidableEq κ]
    {l : List (κ × α)} {k : κ} {v : α} {p : κ × α → Bool}
    (hnd : (keys l).Nodup) (hl : alookup l k = some v)
    (hp : p (k, v) = false) :
    alookup (l.filter p) k = none := by
  induction l with
  | nil => exact Option.noConfusion hl
  | cons e rest ih =>
    obtain ⟨k', v'⟩ := e
    simp only [keys, List.map_cons, List.nodup_cons] at hnd
    by_cases he : k' = k
    · subst he
      simp only [alookup, eq_self_iff_true, if_true, Option.some.injEq] at hl
      subst hl
      rw [List.filter_cons, if_neg (by simp [hp])]
      refine alookup_eq_none_of_not_mem ?_
      intro hx
      refine hnd.1 ?_
      have hsub : List.Sublist (keys (rest.filter p)) (keys rest) :=
        List.Sublist.map Prod.fst (List.filter_sublist rest)
      exact hsub.mem hx
    · simp only [alookup, if_neg he] at hl
      rw [List.filter_cons]
      split
      · simp only [alookup, if_neg he]
        exact ih hnd.2 hl
      · exact ih hnd.2 hl

/-- C5 — `cleanupInactiveSessions(timeoutMs)` destroys exactly the
sessions with an empty subscriber list whose idle time strictly exceeds
the timeout, returns their number, and leaves every session that has an
attached viewer or whose idle time is within the timeout registered with
its value unchanged. -/
theorem c5_sweep_exact (env : Env) (st : SysState) (t : Int)
    (st' : SysState) (evs : List Event) (c : Nat)
    (hnd : (keys st.sessions).Nodup)
    (hvk : ∀ e ∈ st.sessions, validateAndNormalizeUsername e.1 = .ok e.1)
    (hres : cleanupInactiveSessions env st t = .ok (st', evs, c)) :
    st'.sessions = st.sessions.filter (fun e => !decide (reapable env t e.2)) ∧
    c = (st.sessions.filter (fun e => decide (reapable env t e.2))).length ∧
    (∀ k s, alookup st.sessions k = some s → ¬reapable env t s →
      alookup st'.sessions k = some s) ∧
    (∀ k s, alookup st.sessions k = some s → reapable env t s →
      alookup st'.sessions k = none) := by
  obtain ⟨st'', evs2, hrun, hsess⟩ :=
    sweepGo_spec env t st.sessions [] st [] 0 (List.nil_append _).symm
      (by simpa using hnd) (fun e he => hvk e he)
  rw [cleanupInactiveSessions, hrun] at hres
  injection hres with hres
  obtain ⟨h1, h2, h3⟩ := triple_eq hres
  have hs' : st'.sessions = st.sessions.filter (fun e => !decide (reapable env t e.2)) := by
    rw [← h1, hsess, List.nil_append]
  refine ⟨hs', by omega, ?_, ?_⟩
  · intro k s hl hnr
    rw [hs']
    exact alookup_filter_keep hl (by simp [hnr])
  · intro k s hl hr
    rw [hs']
    exact alookup_filter_drop hnd hl (by simp [hr])

/-- An idle session: pty 3, no subscribers, last activity at 0. -/
def sessC : PtySession := ⟨3, 0, 0, []⟩

/-- Two sessions: `"a"` has an attached viewer, `"c"` is idle. -/
def stC : SysState := ⟨[(['a'], sessA), (['c'], sessC)], 4, [7], [], []⟩

theorem c5_witness :
    ((keys stC.sessions).Nodup ∧
      (∀ e ∈ stC.sessions, validateAndNormalizeUsername e.1 = .ok e.1) ∧
      cleanupInactiveSessions envB stC 100 =
        .ok (⟨[(['a'], sessA)], 4, [7], [], []⟩, [Event.killPty 3 true], 1)) ∧
    ((⟨[(['a'], sessA)], 4, [7], [], []⟩ : SysState).sessions =
      stC.sessions.filter (fun e => !decide (reapable envB 100 e.2)) ∧
      (1 : Nat) = (stC.sessions.filter (fun e => decide (reapable envB 100 e.2))).length) := by
  refine ⟨⟨by decide, by decide, by decide⟩, ?_⟩
  have h := c5_sweep_exact envB stC 100 ⟨[(['a'], sessA)], 4, [7], [], []⟩
    [Event.killPty 3 true] 1 (by decide) (by decide) (by decide)
  exact ⟨h.1, h.2.1⟩

/-- C6 (amended) — for an inbound `input` message: data longer than
10000 units is rejected — an `error` message goes back to the viewer,
nothing is written to the pty, and the state is unchanged; *nonempty*
data within the limit is written to the pty unchanged; empty or absent
data is ignored (JavaScript truthiness of `if (msg.data)`), producing
neither a write nor an error.  The original claim promised the
pass-through for *all* data within the limit, which fails for the empty
string (see the counterexample). -/
theorem c6_input_size_limit (st : SysState) (ws p : Nat) (d : JStr) :
    (d.length > 10000 →
      handleMessage st ws p (.input (some d)) = (st, [.sendError ws])) ∧
    (d ≠ [] → d.length ≤ 10000 →
      handleMessage st ws p (.input (some d)) = (st, [.ptyWrite p d])) ∧
    handleMessage st ws p (.input (some [])) = (st, []) ∧
    handleMessage st ws p (.input none) = (st, []) := by
  refine ⟨?_, ?_, rfl, rfl⟩
  · intro hlen
    have h0 : ¬d.length = 0 := by omega
    have hsan : sanitizeTerminalInput d = .error "Terminal input too large" := by
      rw [sanitizeTerminalInput, if_pos hlen]
    simp [handleMessage, h0, hsan]
  · intro hne hlen
    have h0 : ¬d.length = 0 := by
      simpa [List.length_eq_zero] using hne
    have hsan : sanitizeTerminalInput d = .ok d := by
      rw [sanitizeTerminalInput, if_neg (by omega)]
    simp [handleMessage, h0, hsan]

/-- C6, counterexample to the claim as stated: the empty input string is
within the 10000-unit limit, yet it is not passed to the pty's write
operation — the handler drops it (empty string is falsy). -/
theorem c6_counterexample :
    ([] : JStr).length ≤ 10000 ∧
    handleMessage stA 7 0 (WsMessage.input (some [])) = (stA, []) ∧
    (∀ e ∈ ([] : List Event), ∀ xs, e ≠ Event.ptyWrite 0 xs) := by
  refine ⟨by decide, by decide, ?_⟩
  intro e he
  exact absurd he (List.not_mem_nil e)

theorem c6_witness :
    (['h', 'i'] ≠ ([] : JStr) ∧ (['h', 'i'] : JStr).length ≤ 10000) ∧
    handleMessage stA 7 0 (WsMessage.input (some ['h', 'i'])) =
      (stA, [Event.ptyWrite 0 ['h', 'i']]) :=
  ⟨⟨by decide, by decide⟩,
    (c6_input_size_limit stA 7 0 ['h', 'i']).2.1 (by decide) (by decide)⟩

/-- `validateTerminalDimensions` succeeds exactly on integer dimensions
in `[1, 1000]`. -/
theorem validateTerminalDimensions_ok_iff (c r : ℚ) :
    validateTerminalDimensions c r = .ok () ↔
      (c.den = 1 ∧ r.den = 1 ∧ 1 ≤ c ∧ c ≤ 1000 ∧ 1 ≤ r ∧ r ≤ 1000) := by
  unfold validateTerminalDimensions numberIsInteger
  constructor
  · intro h
    split_ifs at h with h1 h2
    simp only [Bool.or_eq_true, Bool.not_eq_true', decide_eq_true_eq,
      decide_eq_false_iff_not, not_or] at h1 h2
    push_neg at h1 h2
    refine ⟨?_, ?_, ?_, ?_, ?_, ?_⟩ <;> tauto
  · rintro ⟨h1, h2, h3, h4, h5, h6⟩
    rw [if_neg, if_neg]
    · simp [h2, not_lt.mpr h5, not_lt.mpr h6]
    · simp [h1, not_lt.mpr h3, not_lt.mpr h4]

/-- C7 — for an inbound `resize` message, the pty's resize operation is
invoked with `(cols, rows)` iff both are integers in `[1, 1000]` (absent
fields and the falsy value `0` are dropped by the truthiness guard,
out-of-range or non-integer values are dropped by the validator); no
dropped request closes a socket or kills a pty, and the state is always
unchanged. -/
theorem c7_resize_validation (st : SysState) (ws p : Nat)
    (oc orr : Option ℚ) :
    handleMessage st ws p (.resize oc orr) =
      (st,
        match oc, orr with
        | some c, some r =>
          if c.den = 1 ∧ r.den = 1 ∧ 1 ≤ c ∧ c ≤ 1000 ∧ 1 ≤ r ∧ r ≤ 1000 then
            [Event.ptyResize p c r]
          else []
        | some _, none => []
        | none, _ => []) ∧
    (∀ c r, Event.ptyResize p c r ∈ (handleMessage st ws p (.resize oc orr)).2 ↔
      (oc = some c ∧ orr = some r ∧ c.den = 1 ∧ r.den = 1 ∧
        1 ≤ c ∧ c ≤ 1000 ∧ 1 ≤ r ∧ r ≤ 1000)) ∧
    (∀ e ∈ (handleMessage st ws p (.resize oc orr)).2,
      (∀ w, e ≠ Event.closeWs w) ∧ (∀ q b, e ≠ Event.killPty q b)) := by
  have h1 : handleMessage st ws p (.resize oc orr) =
      (st,
        match oc, orr with
        | some c, some r =>
          if c.den = 1 ∧ r.den = 1 ∧ 1 ≤ c ∧ c ≤ 1000 ∧ 1 ≤ r ∧ r ≤ 1000 then
            [Event.ptyResize p c r]
          else []
        | some _, none => []
        | none, _ => []) := by
    cases oc with
    | none => rfl
    | some c =>
      cases orr with
      | none => rfl
      | some r =>
        by_cases hg : c.den = 1 ∧ r.den = 1 ∧ 1 ≤ c ∧ c ≤ 1000 ∧ 1 ≤ r ∧ r ≤ 1000
        · have hc0 : ¬c = 0 := by
            rintro rfl
            exact absurd hg.2.2.1 (by norm_num)
          have hr0 : ¬r = 0 := by
            rintro rfl
            exact absurd hg.2.2.2.2.1 (by norm_num)
          have hval : validateTerminalDimensions c r = .ok () :=
            (validateTerminalDimensions_ok_iff c r).mpr hg
          simp [handleMessage, hc0, hr0, hval, hg]
        · by_cases hc0 : c = 0
          · subst hc0
            simp [handleMessage, hg]
          · by_cases hr0 : r = 0
            · subst hr0
              simp [handleMessage, hg]
            · cases hval : validateTerminalDimensions c r with
              | ok u =>
                exact absurd ((validateTerminalDimensions_ok_iff c r).mp
                  (by rw [hval])) hg
              | error e =>
                simp [handleMessage, hc0, hr0, hval, hg]
  refine ⟨h1, ?_, ?_⟩
  · intro c r
    rw [h1]
    cases oc with
    | none => simp
    | some c0 =>
      cases orr with
      | none => simp
      | some r0 =>
        dsimp only
        by_cases hg : c0.den = 1 ∧ r0.den = 1 ∧ 1 ≤ c0 ∧ c0 ≤ 1000 ∧ 1 ≤ r0 ∧ r0 ≤ 1000
        · rw [if_pos hg]
          constructor
          · intro hm
            rw [List.mem_singleton] at hm
            injection hm with hp hc hr
            subst hc
            subst hr
            exact ⟨rfl, rfl, hg⟩
          · rintro ⟨hc, hr, -⟩
            rw [Option.some.injEq] at hc hr
            subst hc
            subst hr
            exact List.mem_singleton.mpr rfl
        · rw [if_neg hg]
          constructor
          · intro hm
            exact absurd hm (List.not_mem_nil _)
          · rintro ⟨hc, hr, h3, h4, h5, h6, h7, h8⟩
            rw [Option.some.injEq] at hc hr
            subst hc
            subst hr
            exact absurd ⟨h3, h4, h5, h6, h7, h8⟩ hg
  · intro e he
    rw [h1] at he
    cases oc with
    | none => exact absurd he (List.not_mem_nil e)
    | some c0 =>
      cases orr with
      | none => exact absurd he (List.not_mem_nil e)
      | some r0 =>
        dsimp only at he
        by_cases hg : c0.den = 1 ∧ r0.den = 1 ∧ 1 ≤ c0 ∧ c0 ≤ 1000 ∧ 1 ≤ r0 ∧ r0 ≤ 1000
        · rw [if_pos hg] at he
          rw [List.mem_singleton] at he
          subst he
          exact ⟨fun w => Event.noConfusion, fun q b => Event.noConfusion⟩
        · rw [if_neg hg] at he
          exact absurd he (List.not_mem_nil e)

theorem c7_witness :
    handleMessage stA 7 0 (WsMessage.resize (some 80) (some 24)) =
      (stA, [Event.ptyResize 0 80 24]) ∧
    handleMessage stA 7 0 (WsMessage.resize (some 5000) (some 24)) =
      (stA, []) :=
  ⟨by
    have h := (c7_resize_validation stA 7 0 (some 80) (some 24)).1
    rw [h]
    norm_num,
   by
    have h := (c7_resize_validation stA 7 0 (some 5000) (some 24)).1
    rw [h]
    norm_num⟩

/-! ## C9: no duplicate subscribers -/

/-- The invariant of C9: no registered session's subscriber list contains
a duplicate viewer reference. -/
def SubsNodup (st : SysState) : Prop :=
  ∀ e ∈ st.sessions, e.2.subscribers.Nodup

instance (st : SysState) : Decidable (SubsNodup st) :=
  inferInstanceAs (Decidable (∀ e ∈ st.sessions, e.2.subscribers.Nodup))

theorem alookup_mem {κ α : Type} [DecidableEq κ]
    {l : List (κ × α)} {k : κ} {v : α} (h : alookup l k = some v) :
    (k, v) ∈ l := by
  induction l with
  | nil => exact Option.noConfusion h
  | cons e rest ih =>
    obtain ⟨k', v'⟩ := e
    by_cases he : k' = k
    · subst he
      simp only [alookup, eq_self_iff_true, if_true, Option.some.injEq] at h
      subst h
      exact List.mem_cons.mpr (Or.inl rfl)
    · simp only [alookup, if_neg he] at h
      exact List.mem_cons_of_mem _ (ih h)

theorem mem_aset {κ α : Type} [DecidableEq κ]
    {l : List (κ × α)} {k : κ} {v : α} {e : κ × α}
    (h : e ∈ aset l k v) : e ∈ l ∨ e = (k, v) := by
  induction l with
  | nil =>
    simp only [aset, List.mem_singleton] at h
    exact Or.inr h
  | cons e' rest ih =>
    obtain ⟨k', v'⟩ := e'
    by_cases he : k' = k
    · subst he
      have ha : aset ((k', v') :: rest) k' v = (k', v) :: rest := by
        simp [aset]
      rw [ha, List.mem_cons] at h
      rcases h with h | h
      · exact Or.inr h
      · exact Or.inl (List.mem_cons_of_mem _ h)
    · have ha : aset ((k', v') :: rest) k v = (k', v') :: aset rest k v := by
        simp [aset, he]
      rw [ha, List.mem_cons] at h
      rcases h with h | h
      · exact Or.inl (List.mem_cons.mpr (Or.inl h))
      · rcases ih h with h | h
        · exact Or.inl (List.mem_cons_of_mem _ h)
        · exact Or.inr h

theorem subsNodup_cleanupCore {env : Env} {st : SysState} {n : JStr}
    (h : SubsNodup st) : SubsNodup (cleanupSessionCore env st n).1 := by
  cases hls : alookup st.sessions n with
  | none =>
    rw [cleanupCore_absent hls]
    exact h
  | some s =>
    rw [cleanupCore_present hls]
    intro e he
    exact h e ((adel_sublist st.sessions n).mem he)

theorem subsNodup_cleanupSession {env : Env} {st st' : SysState}
    {username : JStr} {evs : List Event} (h : SubsNodup st)
    (hr : cleanupSession env st username = .ok (st', evs)) :
    SubsNodup st' := by
  rw [cleanupSession] at hr
  cases hv : validateAndNormalizeUsername username with
  | error e =>
    rw [hv] at hr
    exact Except.noConfusion hr
  | ok n =>
    rw [hv] at hr
    injection hr with hr
    have h2 : SubsNodup (cleanupSessionCore env st n).1 :=
      subsNodup_cleanupCore h
    rw [hr] at h2
    exact h2

theorem subsNodup_createSession {env : Env} {st : SysState}
    {username : JStr} {r : SysState × List Event × PtySession}
    (h : SubsNodup st) (hr : createSession env st username = .ok r) :
    SubsNodup r.1 := by
  rw [createSession] at hr
  cases hv : validateAndNormalizeUsername username with
  | error e =>
    rw [hv] at hr
    exact Except.noConfusion hr
  | ok n =>
    rw [hv] at hr
    dsimp only at hr
    cases hp : validatePathComponent n with
    | error e =>
      rw [hp] at hr
      exact Except.noConfusion hr
    | ok u =>
      rw [hp] at hr
      dsimp only at hr
      injection hr with hr
      subst hr
      intro e he
      rcases mem_aset he with he | he
      · exact h e he
      · rw [he]
        exact List.nodup_nil

theorem subsNodup_attach {env : Env} {st st' : SysState}
    {username : JStr} {ws : Nat} (h : SubsNodup st)
    (hr : attachToSession env st username ws = .ok st') : SubsNodup st' := by
  rw [attachToSession] at hr
  cases hv : validateAndNormalizeUsername username with
  | error e =>
    rw [hv] at hr
    exact Except.noConfusion hr
  | ok n =>
    rw [hv] at hr
    dsimp only at hr
    cases hls : alookup st.sessions n with
    | none =>
      rw [hls] at hr
      injection hr with hr
      subst hr
      exact h
    | some s =>
      rw [hls] at hr
      dsimp only at hr
      by_cases hm : ws ∈ s.subscribers
      · rw [if_pos hm] at hr
        injection hr with hr
        subst hr
        exact h
      · rw [if_neg hm] at hr
        injection hr with hr
        subst hr
        intro e he
        rcases mem_aset he with he | he
        · exact h e he
        · rw [he]
          have hs : s.subscribers.Nodup := h (n, s) (alookup_mem hls)
          refine List.Nodup.append hs (List.nodup_singleton ws) ?_
          intro a ha hb
          rw [List.mem_singleton] at hb
          exact hm (hb ▸ ha)

theorem subsNodup_detach {st st' : SysState} {username : JStr} {ws : Nat}
    (h : SubsNodup st)
    (hr : detachFromSession st username ws = .ok st') : SubsNodup st' := by
  rw [detachFromSession] at hr
  cases hv : validateAndNormalizeUsername username with
  | error e =>
    rw [hv] at hr
    exact Except.noConfusion hr
  | ok n =>
    rw [hv] at hr
    dsimp only at hr
    cases hls : alookup st.sessions n with
    | none =>
      rw [hls] at hr
      injection hr with hr
      subst hr
      exact h
    | some s =>
      rw [hls] at hr
      dsimp only at hr
      injection hr with hr
      subst hr
      intro e he
      rcases mem_aset he with he | he
      · exact h e he
      · rw [he]
        exact List.Nodup.sublist (List.erase_sublist ws s.subscribers)
          (h (n, s) (alookup_mem hls))

theorem subsNodup_getOrCreate {env : Env} {st : SysState} {username : JStr}
    {fn : Bool} {r : SysState × List Event × PtySession} (h : SubsNodup st)
    (hr : getOrCreateSession env st username fn = .ok r) : SubsNodup r.1 := by
  rw [getOrCreateSession] at hr
  cases hv : validateAndNormalizeUsername username with
  | error e =>
    rw [hv] at hr
    exact Except.noConfusion hr
  | ok n =>
    rw [hv] at hr
    dsimp only at hr
    have h0 : SubsNodup (if fn = true ∧ (alookup st.sessions n).isSome = true
        then cleanupSessionCore env st n else (st, [])).1 := by
      split
      · exact subsNodup_cleanupCore h
      · exact h
    generalize hg : (if fn = true ∧ (alookup st.sessions n).isSome = true
      then cleanupSessionCore env st n else (st, [])) = st0 at h0 hr
    cases hls : alookup st0.1.sessions n with
    | some s =>
      rw [hls] at hr
      dsimp only at hr
      injection hr with hr
      subst hr
      intro e he
      rcases mem_aset he with he | he
      · exact h0 e he
      · rw [he]
        exact h0 (n, s) (alookup_mem hls)
    | none =>
      rw [hls] at hr
      cases hc : createSession env st0.1 n with
      | error e =>
        rw [hc] at hr
        exact Except.noConfusion hr
      | ok r' =>
        obtain ⟨st1, evs1, s1⟩ := r'
        rw [hc] at hr
        dsimp only at hr
        injection hr with hr
        subst hr
        have hcs : SubsNodup (st1, evs1, s1).1 := subsNodup_createSession h0 hc
        exact hcs

theorem subsNodup_sweepGo {env : Env} {t : Int} :
    ∀ (entries : List (JStr × PtySession)) (st : SysState)
      (evs : List Event) (c : Nat) (r : SysState × List Event × Nat),
      SubsNodup st → sweepGo env t entries st evs c = .ok r →
      SubsNodup r.1 := by
  intro entries
  induction entries with
  | nil =>
    intro st evs c r h hr
    rw [sweepGo] at hr
    injection hr with hr
    subst hr
    exact h
  | cons e rest ih =>
    obtain ⟨k, s⟩ := e
    intro st evs c r h hr
    rw [sweepGo] at hr
    split at hr
    · cases hc : cleanupSession env st k with
      | error e =>
        rw [hc] at hr
        exact Except.noConfusion hr
      | ok q =>
        obtain ⟨st1, evs1⟩ := q
        rw [hc] at hr
        dsimp only at hr
        exact ih _ _ _ _ (subsNodup_cleanupSession h hc) hr
    · exact ih _ _ _ _ h hr

theorem subsNodup_sweep {env : Env} {st : SysState} {t : Int}
    {r : SysState × List Event × Nat} (h : SubsNodup st)
    (hr : cleanupInactiveSessions env st t = .ok r) : SubsNodup r.1 :=
  subsNodup_sweepGo st.sessions st [] 0 r h hr

theorem subsNodup_shutdownGo {env : Env} :
    ∀ (names : List JStr) (st : SysState) (evs : List Event)
      (r : SysState × List Event),
      SubsNodup st → shutdownGo env names st evs = .ok r →
      SubsNodup r.1 := by
  intro names
  induction names with
  | nil =>
    intro st evs r h hr
    rw [shutdownGo] at hr
    injection hr with hr
    subst hr
    exact h
  | cons k rest ih =>
    intro st evs r h hr
    rw [shutdownGo] at hr
    cases hc : cleanupSession env st k with
    | error e =>
      rw [hc] at hr
      exact Except.noConfusion hr
    | ok q =>
      obtain ⟨st1, evs1⟩ := q
      rw [hc] at hr
      dsimp only at hr
      exact ih _ _ _ (subsNodup_cleanupSession h hc) hr

theorem subsNodup_shutdownAll {env : Env} {st : SysState}
    {r : SysState × List Event} (h : SubsNodup st)
    (hr : shutdownAll env st = .ok r) : SubsNodup r.1 :=
  subsNodup_shutdownGo (st.sessions.map Prod.fst) st [] r h hr

theorem subsNodup_processExit {env : Env} {st : SysState} {p code : Nat}
    {r : SysState × List Event} (h : SubsNodup st)
    (hr : processExit env st p code = .ok r) : SubsNodup r.1 := by
  rw [processExit] at hr
  cases hh : alookup st.mgrExitHandlers p with
  | none =>
    rw [hh] at hr
    dsimp only at hr
    injection hr with hr
    subst hr
    exact h
  | some n =>
    rw [hh] at hr
    dsimp only at hr
    cases hc : cleanupSession env st n with
    | error e =>
      rw [hc] at hr
      exact Except.noConfusion hr
    | ok q =>
      obtain ⟨st1, evs1⟩ := q
      rw [hc] at hr
      dsimp only at hr
      injection hr with hr
      subst hr
      exact fun e he => subsNodup_cleanupSession h hc e he

/-- C9 — attaching the same viewer twice to one session leaves exactly
one entry for that viewer in the session's subscriber sequence (the
membership check in `attachToSession` makes the second attach a no-op),
and every registry operation — attach, detach, cleanup, create,
get-or-create, idle sweep, shutdown, process exit — preserves the
invariant that no session's subscriber list contains duplicates. -/
theorem c9_no_duplicate_subscribers :
    (∀ (env1 env2 : Env) (st st1 st2 : SysState) (username n : JStr) (ws : Nat),
      validateAndNormalizeUsername username = .ok n →
      SubsNodup st →
      attachToSession env1 st username ws = .ok st1 →
      attachToSession env2 st1 username ws = .ok st2 →
      ∀ s2, alookup st2.sessions n = some s2 → s2.subscribers.count ws = 1) ∧
    (∀ (env : Env) (st : SysState) (username : JStr) (ws : Nat) (st' : SysState),
      SubsNodup st → attachToSession env st username ws = .ok st' →
      SubsNodup st') ∧
    (∀ (st : SysState) (username : JStr) (ws : Nat) (st' : SysState),
      SubsNodup st → detachFromSession st username ws = .ok st' →
      SubsNodup st') ∧
    (∀ (env : Env) (st : SysState) (username : JStr) (r : SysState × List Event),
      SubsNodup st → cleanupSession env st username = .ok r → SubsNodup r.1) ∧
    (∀ (env : Env) (st : SysState) (username : JStr)
      (r : SysState × List Event × PtySession),
      SubsNodup st → createSession env st username = .ok r → SubsNodup r.1) ∧
    (∀ (env : Env) (st : SysState) (username : JStr) (fn : Bool)
      (r : SysState × List Event × PtySession),
      SubsNodup st → getOrCreateSession env st username fn = .ok r →
      SubsNodup r.1) ∧
    (∀ (env : Env) (st : SysState) (t : Int) (r : SysState × List Event × Nat),
      SubsNodup st → cleanupInactiveSessions env st t = .ok r →
      SubsNodup r.1) ∧
    (∀ (env : Env) (st : SysState) (r : SysState × List Event),
      SubsNodup st → shutdownAll env st = .ok r → SubsNodup r.1) ∧
    (∀ (env : Env) (st : SysState) (p code : Nat) (r : SysState × List Event),
      SubsNodup st → processExit env st p code = .ok r → SubsNodup r.1) := by
  refine ⟨?_, fun env st username ws st' h hr => subsNodup_attach h hr,
    fun st username ws st' h hr => subsNodup_detach h hr,
    fun env st username r h hr => ?_,
    fun env st username r h hr => subsNodup_createSession h hr,
    fun env st username fn r h hr => subsNodup_getOrCreate h hr,
    fun env st t r h hr => subsNodup_sweep h hr,
    fun env st r h hr => subsNodup_shutdownAll h hr,
    fun env st p code r h hr => subsNodup_processExit h hr⟩
  · intro env1 env2 st st1 st2 username n ws hv h h1 h2 s2 hls2
    rw [attachToSession] at h1 h2
    rw [hv] at h1 h2
    dsimp only at h1 h2
    cases hls : alookup st.sessions n with
    | none =>
      rw [hls] at h1
      injection h1 with h1
      subst h1
      rw [hls] at h2
      injection h2 with h2
      subst h2
      rw [hls] at hls2
      exact Option.noConfusion hls2
    | some s =>
      rw [hls] at h1
      dsimp only at h1
      by_cases hm : ws ∈ s.subscribers
      · rw [if_pos hm] at h1
        injection h1 with h1
        subst h1
        rw [hls] at h2
        dsimp only at h2
        rw [if_pos hm] at h2
        injection h2 with h2
        subst h2
        rw [hls] at hls2
        injection hls2 with hls2
        subst hls2
        exact List.count_eq_one_of_mem (h (n, s) (alookup_mem hls)) hm
      · rw [if_neg hm] at h1
        injection h1 with h1
        subst h1
        dsimp only at h2
        rw [alookup_aset_self] at h2
        dsimp only at h2
        rw [if_pos (List.mem_append.mpr (Or.inr (List.mem_singleton.mpr rfl)))] at h2
        injection h2 with h2
        subst h2
        dsimp only at hls2
        rw [alookup_aset_self] at hls2
        injection hls2 with hls2
        subst hls2
        dsimp only
        rw [List.count_append, List.count_eq_zero_of_not_mem hm]
        simp
  · obtain ⟨st', evs⟩ := r
    exact subsNodup_cleanupSession h hr

/-- `stA` after attaching viewer 9 to the session of `"a"`. -/
def stA9 : SysState :=
  ⟨[(['a'], ⟨0, 5, 1000, [7, 9]⟩)], 1, [7], [(0, 7)], [(0, ['a'])]⟩

theorem c9_witness :
    (validateAndNormalizeUsername ['a'] = .ok ['a'] ∧ SubsNodup stA ∧
      attachToSession envA stA ['a'] 9 = .ok stA9 ∧
      attachToSession envB stA9 ['a'] 9 = .ok stA9 ∧
      alookup stA9.sessions ['a'] = some ⟨0, 5, 1000, [7, 9]⟩) ∧
    (⟨0, 5, 1000, [7, 9]⟩ : PtySession).subscribers.count 9 = 1 :=
  ⟨⟨by decide, by decide, by decide, by decide, by decide⟩,
    c9_no_duplicate_subscribers.1 envA envB stA stA9 stA9 ['a'] ['a'] 9
      (by decide) (by decide) (by decide) (by decide)
      ⟨0, 5, 1000, [7, 9]⟩ (by decide)⟩
